import Mathlib

set_option maxRecDepth 8000

namespace Vg

/-- A byte, as used on the wire and in modelled UTF-8 strings. -/
abbrev Byte := Fin 256

/-- An IEEE-754 double, modelled by the eight bytes of its little-endian
bit pattern: bincode serializes an `f64` as exactly these eight raw bytes,
so value equality is bit-pattern equality here. -/
structure F64 where
  b0 : Byte
  b1 : Byte
  b2 : Byte
  b3 : Byte
  b4 : Byte
  b5 : Byte
  b6 : Byte
  b7 : Byte
deriving DecidableEq, Repr

/-- The all-zero double bit pattern, used to build concrete witnesses. -/
def F64.zero : F64 := ⟨0, 0, 0, 0, 0, 0, 0, 0⟩

/-- Period/resolution values of the upstream API, from `degiro/src/lib.rs`,
`enum Period`. -/
inductive Period where
  | PT1S
  | PT1M
  | PT1H
  | P1D
  | P1W
  | P1M
  | P3M
  | P6M
  | P1Y
  | P3Y
  | P5Y
  | P50Y
deriving DecidableEq, Repr

/-- Fixed millisecond duration of one resolution unit, from
`degiro/src/lib.rs`, `Period::to_ms`. -/
def Period.toMs : Period → Nat
  | .PT1S => 1000
  | .PT1M => 1000 * 60
  | .PT1H => 1000 * 60 * 60
  | .P1D => 1000 * 60 * 60 * 24
  | .P1W => 1000 * 60 * 60 * 24 * 7
  | .P1M => 1000 * 60 * 60 * 24 * 30
  | .P3M => 1000 * 60 * 60 * 24 * 30 * 3
  | .P6M => 1000 * 60 * 60 * 24 * 30 * 6
  | .P1Y => 1000 * 60 * 60 * 24 * 365
  | .P3Y => 1000 * 60 * 60 * 24 * 365 * 3
  | .P5Y => 1000 * 60 * 60 * 24 * 365 * 5
  | .P50Y => 1000 * 60 * 60 * 24 * 365 * 50

/-- One row of the upstream price payload, from `degiro/src/api/quotes.rs`,
`struct Ohlc`: an offset count `n` plus open/high/low/close. -/
structure Ohlc where
  n : Nat
  o : F64
  h : F64
  l : F64
  c : F64
deriving DecidableEq, Repr

/-- Rust `as i64` cast of a `u64` value (the source computes
`(interval.to_ms() * x.n) as i64`; `u64` multiplication wraps mod 2^64). -/
def u64AsI64 (n : Nat) : Int :=
  if n % 2 ^ 64 < 2 ^ 63 then ((n % 2 ^ 64 : Nat) : Int)
  else ((n % 2 ^ 64 : Nat) : Int) - 2 ^ 64

/-- Days since 1970-01-01 of the civil date (y, m, d), proleptic Gregorian;
floor-division formulation of the standard civil-from-days algorithm.  Used
only to pin the chrono datetime range constants and check concrete dates. -/
def daysFromCivilInt (y : Int) (m d : Nat) : Int :=
  let y2 : Int := if m ≤ 2 then y - 1 else y
  let era : Int := Int.fdiv y2 400
  let yoe : Int := y2 - era * 400
  let doy : Nat := (153 * (if m > 2 then m - 3 else m + 9) + 2) / 5 + d - 1
  let doe : Int := yoe * 365 + Int.fdiv yoe 4 - Int.fdiv yoe 100 + (doy : Int)
  era * 146097 + doe - 719468

/-- Civil (year, month, day) of a day count since 1970-01-01 (nonnegative
days only, which covers the dates checked here). -/
def civilFromDaysNat (z0 : Nat) : Nat × Nat × Nat :=
  let z := z0 + 719468
  let era := z / 146097
  let doe := z % 146097
  let yoe := (doe - doe / 1460 + doe / 36524 - doe / 146096) / 365
  let y := yoe + era * 400
  let doy := doe - (365 * yoe + yoe / 4 - yoe / 100)
  let mp := (5 * doy + 2) / 153
  let d := doy - (153 * mp + 2) / 5 + 1
  let m := if mp < 10 then mp + 3 else mp - 9
  (if m ≤ 2 then y + 1 else y, m, d)

/-- Lower bound (ms since epoch) of chrono's datetime range; chrono's
`checked_add_signed` fails outside it.  chrono is external to the repo; its
documented year range is -262144..=262143. -/
def chronoMinMs : Int := 86400000 * daysFromCivilInt (-262144) 1 1

/-- Upper bound (ms since epoch) of chrono's datetime range. -/
def chronoMaxMs : Int := 86400000 * daysFromCivilInt 262143 12 31 + 86399999

/-- chrono `checked_add_signed` on a UTC time in ms: the sum, or `none`
when the result leaves chrono's representable range. -/
def checkedAdd (t shift : Int) : Option Int :=
  let r := t + shift
  if chronoMinMs ≤ r ∧ r ≤ chronoMaxMs then some r else none

/-- Decoded candle series (time model of `erfurt` `Candles` as built by
`Quotes::as_candles` in `degiro/src/api/quotes.rs`); times are absolute ms
since epoch. -/
structure CandlesC2 where
  symbol : List Char
  time : List Int
  opn : List F64
  hi : List F64
  lo : List F64
  cl : List F64
deriving DecidableEq, Repr

/-- The per-row absolute times built by `Quotes::as_candles`: for each row,
shift = `(interval.to_ms() * x.n) as i64` milliseconds and the time is
`start.checked_add_signed(shift)`; any failed add aborts the conversion. -/
def asCandlesTimes (interval : Period) (start : Int) : List Ohlc → Option (List Int)
  | [] => some []
  | x :: xs => do
    let dt ← checkedAdd start (u64AsI64 (interval.toMs * x.n))
    let rest ← asCandlesTimes interval start xs
    pure (dt :: rest)

/-- `Quotes::as_candles` from `degiro/src/api/quotes.rs`: uppercases the
symbol and pushes, per row, the shifted time plus the four OHLC fields. -/
def asCandles (rows : List Ohlc) (symbol : List Char) (start : Int)
    (interval : Period) : Option CandlesC2 := do
  let times ← asCandlesTimes interval start rows
  pure { symbol := symbol.map Char.toUpper
         time := times
         opn := rows.map (·.o)
         hi := rows.map (·.h)
         lo := rows.map (·.l)
         cl := rows.map (·.c) }

/-- Keys of the persistent store (instrument ids), modelled as character
lists. -/
abbrev Key := List Char

/-- One LMDB table of the embedded store: an association list keyed by
string; keys are unique by construction of put/delete. -/
abbrev Table (α : Type) := List (Key × α)

/-- Table read (`heed` `get`). -/
def tableGet {α : Type} (t : Table α) (k : Key) : Option α :=
  (t.find? (fun e => e.1 == k)).map (·.2)

/-- Table upsert (`heed` `put`): replaces the entry under the key, or
appends it. -/
def tablePut {α : Type} : Table α → Key → α → Table α
  | [], k, v => [(k, v)]
  | e :: rest, k, v => if e.1 == k then (k, v) :: rest else e :: tablePut rest k v

/-- Table delete (`heed` `delete`): removes the entry under the key. -/
def tableDelete {α : Type} (t : Table α) (k : Key) : Table α :=
  t.filter (fun e => !(e.1 == k))

/-- The fields of a stored `ProductDetails` that the query handlers in
`src/puppet/db.rs` inspect (symbol and display name), the id, and the
remaining fields abstracted into `rest` (they are carried through
unchanged). -/
structure DbProduct where
  id : List Char
  symbol : List Char
  name : List Char
  rest : Nat
deriving DecidableEq, Repr

/-- The four tables of the persistent store opened by `Db::new` in
`src/puppet/db.rs`; candle series and the two report kinds are opaque
serialized payloads here. -/
structure Store where
  candles : Table Nat
  products : Table DbProduct
  financialReports : Table Nat
  companyRatios : Table Nat
deriving DecidableEq, Repr

/-- The four delete operations issued inside the `DeleteData` write
transaction of `Handler<DeleteData> for Db`, in source order. -/
def deleteSteps (k : Key) : List (Store → Store) :=
  [fun st => { st with candles := tableDelete st.candles k },
   fun st => { st with products := tableDelete st.products k },
   fun st => { st with financialReports := tableDelete st.financialReports k },
   fun st => { st with companyRatios := tableDelete st.companyRatios k }]

/-- The committed effect of the `DeleteData` transaction: the key removed
from all four tables. -/
def deleteDataPure (st : Store) (k : Key) : Store :=
  { candles := tableDelete st.candles k
    products := tableDelete st.products k
    financialReports := tableDelete st.financialReports k
    companyRatios := tableDelete st.companyRatios k }

/-- Run a write transaction: steps mutate only the transaction-local view;
`failAt = some j` makes the j-th operation (counting the final commit as
one more operation) fail, which drops the view.  Reaching the end of the
list is the commit. -/
def runTxnSteps : List (Store → Store) → Option Nat → Store → Option Store
  | _, some 0, _ => none
  | [], _, wtx => some wtx
  | f :: fs, fa, wtx => runTxnSteps fs (fa.map (· - 1)) (f wtx)

/-- `Handler<DeleteData> for Db` (src/puppet/db.rs): run the four deletes
and the commit inside one write transaction; on any failure the
transaction is dropped and the base store is unchanged (`false`), on
commit the transaction view is installed (`true`). -/
def handleDeleteData (failAt : Option Nat) (st : Store) (k : Key) : Store × Bool :=
  match runTxnSteps (deleteSteps k) failAt st with
  | none => (st, false)
  | some st2 => (st2, true)

/-- Lowercasing used by the symbol comparison in the query handlers. -/
def toLowerCL (s : List Char) : List Char := s.map Char.toLower

/-- Whether `p` is a leading segment of `s`. -/
def startsWithCL : List Char → List Char → Bool
  | [], _ => true
  | _ :: _, [] => false
  | p :: ps, c :: cs => p == c && startsWithCL ps cs

/-- Whether `pat` occurs contiguously inside `s`. -/
def containsCL : List Char → List Char → Bool
  | s, pat =>
    match s with
    | [] => pat.isEmpty
    | _ :: rest => startsWithCL pat s || containsCL rest pat

/-- The `(?i){name}` regex test of the query handlers, modelled for
literal (metacharacter-free) patterns: case-insensitive containment of the
pattern in the display name. -/
def nameMatches (pat nm : List Char) : Bool :=
  containsCL (toLowerCL nm) (toLowerCL pat)

/-- `enum ProductQuery` from `src/puppet/db.rs`: lookup by id, symbol or
name. -/
inductive ProductQuery where
  | byId (s : List Char)
  | bySymbol (s : List Char)
  | byName (s : List Char)
deriving DecidableEq, Repr

/-- `Handler<ProductQuery> for Db` (src/puppet/db.rs): by id, a direct
keyed read; by symbol, the first stored product whose lowercased symbol
equals the lowercased query; by name, the first stored product whose name
matches the case-insensitive pattern; otherwise `none`. -/
def handleProductQuery (st : Store) : ProductQuery → Option DbProduct
  | .byId s => tableGet st.products s
  | .bySymbol s =>
    (st.products.find? (fun e => toLowerCL e.2.symbol == toLowerCL s)).map (·.2)
  | .byName s =>
    (st.products.find? (fun e => nameMatches s e.2.name)).map (·.2)

/-- Tracked asset, `struct Asset` in `src/puppet/settings.rs`. -/
structure Asset where
  id : List Char
deriving DecidableEq, Repr

/-- `enum RiskMode` from `src/portfolio.rs`. -/
inductive RiskMode where
  | std
  | lsv
deriving DecidableEq, Repr

/-- `struct Config` from `src/puppet/settings.rs`: the tracked-asset list,
the archival `disabled_assets` list, and the remaining persisted knobs
(carried for the frame property). -/
structure Config where
  slNstd : Nat
  slMaxDd : F64
  riskMode : RiskMode
  risk : F64
  riskFree : F64
  filePath : Option (List Char)
  username : List Char
  password : List Char
  assets : List Asset
  disabledAssets : Option (List Asset)
deriving DecidableEq, Repr

/-- The `enumerate().find_map(...)` scan of `Handler<DeleteAsset>`: the
position and value of the first asset with the requested id. -/
def findRemoval : List Asset → List Char → Option (Nat × Asset)
  | [], _ => none
  | a :: rest, i =>
    if a.id = i then some (0, a)
    else (findRemoval rest i).map (fun pr => (pr.1 + 1, pr.2))

/-- `Handler<DeleteAsset> for Settings` (src/puppet/settings.rs): if an
asset with the id is found, push it onto `disabled_assets` (created if
absent), remove it from `assets` and save the config (`true`); otherwise
leave the config alone and skip the save (`false`). -/
def handleDeleteAsset (cfg : Config) (i : List Char) : Config × Bool :=
  match findRemoval cfg.assets i with
  | none => (cfg, false)
  | some (pos, a) =>
    ({ cfg with
        assets := cfg.assets.eraseIdx pos
        disabledAssets := some ((cfg.disabledAssets.getD []) ++ [a]) }, true)

/-- Execution discipline a handler declares for one message type. -/
inductive ExecKind where
  | sequential
  | concurrent
deriving DecidableEq, Repr

/-- Message types the Db (cache) unit accepts in `src/puppet/db.rs`. -/
inductive DbMsg where
  | putProduct
  | putCandles
  | putFinancialReports
  | putCompanyRatios
  | productQuery
  | candlesQuery
  | financialReportsQuery
  | companyRatiosQuery
  | deleteData
  | cleanUp
deriving DecidableEq, Repr

/-- Which Db messages write to the entity cache (the four puts and the
per-id delete). -/
def DbMsg.isCacheWrite : DbMsg → Bool
  | .putProduct | .putCandles | .putFinancialReports | .putCompanyRatios
  | .deleteData => true
  | _ => false

/-- The `type Executor` declaration of each Db handler, read off
`src/puppet/db.rs`. -/
def dbExecutor : DbMsg → ExecKind
  | .putProduct => .sequential
  | .putCandles => .sequential
  | .putFinancialReports => .sequential
  | .putCompanyRatios => .sequential
  | .productQuery => .concurrent
  | .candlesQuery => .concurrent
  | .financialReportsQuery => .concurrent
  | .companyRatiosQuery => .concurrent
  | .deleteData => .concurrent
  | .cleanUp => .concurrent

/-- Message types the Settings unit accepts in `src/puppet/settings.rs`. -/
inductive SettingsMsg where
  | saveSettings
  | replaceSettings
  | getAssets
  | addAsset
  | deleteAsset
deriving DecidableEq, Repr

/-- The `type Executor` declaration of each Settings handler, read off
`src/puppet/settings.rs`. -/
def settingsExecutor : SettingsMsg → ExecKind
  | .saveSettings => .concurrent
  | .replaceSettings => .concurrent
  | .getAssets => .sequential
  | .addAsset => .sequential
  | .deleteAsset => .sequential

/-- Terminal outcome classes of one upstream fetch inside `FetchData`. -/
inductive FetchErr where
  | unauthorized
  | other
deriving DecidableEq, Repr

/-- The product payload as far as the `FetchData` flow uses it. -/
structure ProductData where
  isin : List Char
  payload : Nat
deriving DecidableEq, Repr

/-- Outcomes of the four upstream fetches performed for one id by
`Handler<FetchData> for Degiro`. -/
structure FetchOutcomes where
  product : Except FetchErr ProductData
  quotes : Except FetchErr Nat
  financial : Except FetchErr Nat
  ratios : Except FetchErr Nat

/-- Messages the `FetchData` handler emits to the other units. -/
inductive GwAction where
  | putProduct (p : ProductData)
  | putCandles (q : Nat)
  | putFinancialReports (r : Nat)
  | putCompanyRatios (r : Nat)
  | askAuthorize
  | resendFetchData (i : List Char)
  | settingsDeleteAsset (i : List Char)
  | dbDeleteData (i : List Char)
deriving DecidableEq, Repr

/-- The messages emitted after the product stage of `FetchData` for one
id: persist the quotes or, on a quotes failure, drop the id from Settings
and purge it from the cache; a financial-statements or company-ratios
failure is only logged (the cleanup there is commented out in the
source). -/
def fetchTail (i : List Char) (o : FetchOutcomes) : List GwAction :=
  (match o.quotes with
   | .ok q => [.putCandles q]
   | .error _ => [.settingsDeleteAsset i, .dbDeleteData i])
  ++ (match o.financial with
      | .ok r => [.putFinancialReports r]
      | .error _ => [])
  ++ (match o.ratios with
      | .ok r => [.putCompanyRatios r]
      | .error _ => [])

/-- `Handler<FetchData> for Degiro` (src/puppet/degiro.rs) for one id: an
unauthorized product fetch re-authorizes and re-submits the original
message; otherwise the product (if fetched) is persisted and the
quotes/financial/ratios stages run. -/
def handleFetchDataOne (i : List Char) (o : FetchOutcomes) : List GwAction :=
  match o.product with
  | .error .unauthorized => [.askAuthorize, .resendFetchData i]
  | .error .other => fetchTail i o
  | .ok p => .putProduct p :: fetchTail i o

/-- The per-asset loop of the id-less `FetchData` branch (the branch
authorizes once and then asks itself `FetchData` for every tracked asset
in order; this is the concatenation of the per-id emissions). -/
def fetchAll (o : List Char → FetchOutcomes) : List (List Char) → List GwAction
  | [] => []
  | i :: rest => handleFetchDataOne i (o i) ++ fetchAll o rest

/-- Gateway state relevant to the `Authorize` handler: the in-progress
flag (the `Notify` wake-up is implicit in the atomic-handler semantics)
and whether the client holds a valid session. -/
structure GwState where
  isAuthorizing : Bool
  hasSession : Bool
deriving DecidableEq, Repr

/-- Observable authentication events. -/
inductive AuthEvent where
  | waited
  | loginCalled
deriving DecidableEq, Repr

/-- `Handler<Authorize> for Degiro` (src/puppet/degiro.rs): a handler that
finds the in-progress flag set waits on the broadcast wake-up and returns
without issuing a login; otherwise it sets the flag, performs the login
call (outcome `loginOk`), clears the flag and notifies waiters.  Returns
the new state, the emitted events and whether the handler succeeded. -/
def handleAuthorize (loginOk : Bool) (st : GwState) : GwState × List AuthEvent × Bool :=
  if st.isAuthorizing then (st, [.waited], true)
  else if loginOk then ({ isAuthorizing := false, hasSession := true }, [.loginCalled], true)
  else ({ st with isAuthorizing := false }, [.loginCalled], false)

/-- A session-requiring gateway call under sequential conditions
(pattern of `Handler<GetPortfolio>` and friends): the live call succeeds
iff a session is held; on `Unauthorized` the handler asks itself to
`Authorize` and then re-submits the same message.  Fuel bounds the
re-submission; `false` with empty events marks exhausted fuel. -/
def handleSessionCall (loginOk : Bool) : Nat → GwState → GwState × List AuthEvent × Bool
  | 0, st => (st, [], false)
  | fuel + 1, st =>
    if st.hasSession then (st, [], true)
    else
      match handleAuthorize loginOk st with
      | (st1, evs, true) =>
        match handleSessionCall loginOk fuel st1 with
        | (st2, evs2, ok2) => (st2, evs ++ evs2, ok2)
      | (st1, evs, false) => (st1, evs, false)

/-- Upstream behavior oracles for the degiro client calls resolved by
`fetch_products` (src/degiro/src/api/product.rs): the login response body
carries an *optional* session id (src/degiro/src/api/login.rs,
`LoginResponse.session_id`), and the batch product fetch either fails or
returns a map of products to insert. -/
structure Upstream where
  loginResp : Except Unit (Option (List Char))
  accountDataOk : Bool
  accountConfigOk : Bool
  batchResp : Except Unit (List (Key × Nat))

/-- Client state threaded through the prerequisite chain of
`fetch_products`: the session id, whether account data and the derived
products-search url are present, and the in-memory products cache. -/
structure PState where
  sessionId : Option (List Char)
  account : Bool
  productsSearchUrl : Bool
  productsCache : Table Nat

/-- `login` (src/degiro/src/api/login.rs): on a 2xx response the client
stores whatever optional session id the body carried — possibly none. -/
def loginStep (u : Upstream) (st : PState) : Except Unit PState :=
  match u.loginResp with
  | .ok sid => .ok { st with sessionId := sid }
  | .error e => .error e

/-- `fetch_account_data`: marks account data present on success. -/
def accountDataStep (u : Upstream) (st : PState) : Except Unit PState :=
  if u.accountDataOk then .ok { st with account := true } else .error ()

/-- `fetch_account_config` as a producer: marks the derived url present on
success. -/
def accountConfigStep (u : Upstream) (st : PState) : Except Unit PState :=
  if u.accountConfigOk then .ok { st with productsSearchUrl := true } else .error ()

/-- Insert a batch-fetch result map into the products cache. -/
def insertAll (t : Table Nat) (m : List (Key × Nat)) : Table Nat :=
  m.foldl (fun acc kv => tablePut acc kv.1 kv.2) t

/-- `SharedClient::fetch_products` (src/degiro/src/api/product.rs): with
session, account and search url all present, one batch call populates the
cache; for the first missing prerequisite the producer is invoked and the
whole operation recurses on itself.  `none` is the fuel running out, i.e.
the source recursion not having returned within `fuel` self-calls. -/
def fetchProducts (u : Upstream) : Nat → PState → List Key → Option (Except Unit PState)
  | 0, _, _ => none
  | fuel + 1, st, ids =>
    match st.sessionId, st.account, st.productsSearchUrl with
    | some _, true, true =>
      some (match u.batchResp with
            | .ok m => .ok { st with productsCache := insertAll st.productsCache m }
            | .error e => .error e)
    | none, _, _ =>
      match loginStep u st with
      | .ok st2 => fetchProducts u fuel st2 ids
      | .error e => some (.error e)
    | some _, false, _ =>
      match accountDataStep u st with
      | .ok st2 => fetchProducts u fuel st2 ids
      | .error e => some (.error e)
    | some _, true, false =>
      match accountConfigStep u st with
      | .ok st2 => fetchProducts u fuel st2 ids
      | .error e => some (.error e)

/-- `SharedClient::product_by_id` (src/degiro/src/api/product.rs): return
the cached product, otherwise batch-fetch the id and recurse on itself.
`none` is the fuel running out. -/
def productById (u : Upstream) : Nat → PState → Key → Option (Except Unit (Nat × PState))
  | 0, _, _ => none
  | fuel + 1, st, i =>
    match tableGet st.productsCache i with
    | some p => some (.ok (p, st))
    | none =>
      match fetchProducts u fuel st [i] with
      | none => none
      | some (.error e) => some (.error e)
      | some (.ok st2) => productById u fuel st2 i

/-- Outcome classes of the account-config HTTP call. -/
inductive HttpOutcome where
  | success
  | unauthorized
  | failure
deriving DecidableEq, Repr

/-- `Client::fetch_account_config` (src/degiro/src/api/account_config.rs):
success populates the derived urls; a 401 logs in and retries the whole
operation; any other error is returned.  `none` is the fuel running
out. -/
def fetchAccountConfigLoop (configResp : HttpOutcome)
    (loginResp : Except Unit (Option (List Char))) :
    Nat → PState → Option (Except Unit PState)
  | 0, _ => none
  | fuel + 1, st =>
    match configResp with
    | .success => some (.ok { st with productsSearchUrl := true })
    | .failure => some (.error ())
    | .unauthorized =>
      match loginResp with
      | .ok sid => fetchAccountConfigLoop configResp loginResp fuel { st with sessionId := sid }
      | .error e => some (.error e)

/-- Truncate a natural number to one byte. -/
def byteOf (n : Nat) : Byte := ⟨n % 256, Nat.mod_lt _ (by norm_num)⟩

/-- A modelled Rust `String`: its UTF-8 bytes. -/
abbrev Str := List Byte

/-- bincode (v1, `bincode::serialize` defaults) writes a `u32` as four
little-endian bytes; enum variant tags are `u32`. -/
def encU32 (n : Nat) : List Byte :=
  [byteOf n, byteOf (n / 256), byteOf (n / 256 ^ 2), byteOf (n / 256 ^ 3)]

/-- Read a little-endian `u32`. -/
def decU32 : List Byte → Option (Nat × List Byte)
  | a :: b :: c :: d :: r =>
    some (a.val + 256 * (b.val + 256 * (c.val + 256 * d.val)), r)
  | _ => none

/-- bincode writes a `u64`/`usize` (collection lengths included) as eight
little-endian bytes. -/
def encU64 (n : Nat) : List Byte :=
  [byteOf n, byteOf (n / 256), byteOf (n / 256 ^ 2), byteOf (n / 256 ^ 3),
   byteOf (n / 256 ^ 4), byteOf (n / 256 ^ 5), byteOf (n / 256 ^ 6), byteOf (n / 256 ^ 7)]

/-- Read a little-endian `u64`. -/
def decU64 : List Byte → Option (Nat × List Byte)
  | a :: b :: c :: d :: e :: f :: g :: h :: r =>
    some (a.val + 256 * (b.val + 256 * (c.val + 256 * (d.val + 256 * (e.val +
      256 * (f.val + 256 * (g.val + 256 * h.val)))))), r)
  | _ => none

/-- Take exactly `n` bytes. -/
def decTake : Nat → List Byte → Option (List Byte × List Byte)
  | 0, l => some ([], l)
  | _ + 1, [] => none
  | n + 1, b :: l =>
    match decTake n l with
    | none => none
    | some (xs, r) => some (b :: xs, r)

/-- bincode writes a `String` as a `u64` length followed by its bytes. -/
def encStr (s : Str) : List Byte := encU64 s.length ++ s

/-- Read a length-prefixed byte string. -/
def decStr (l : List Byte) : Option (Str × List Byte) :=
  match decU64 l with
  | none => none
  | some (n, r) => decTake n r

/-- bincode writes an `f64` as its eight bit-pattern bytes. -/
def encF64 (x : F64) : List Byte := [x.b0, x.b1, x.b2, x.b3, x.b4, x.b5, x.b6, x.b7]

/-- Read an `f64` bit pattern. -/
def decF64 : List Byte → Option (F64 × List Byte)
  | b0 :: b1 :: b2 :: b3 :: b4 :: b5 :: b6 :: b7 :: r =>
    some (⟨b0, b1, b2, b3, b4, b5, b6, b7⟩, r)
  | _ => none

/-- bincode writes a `bool` as one byte, 0 or 1. -/
def encBool (b : Bool) : List Byte := [byteOf (if b then 1 else 0)]

/-- Read a `bool`; any byte other than 0/1 is a decode error. -/
def decBool : List Byte → Option (Bool × List Byte)
  | b :: r => if b.val = 0 then some (false, r) else if b.val = 1 then some (true, r) else none
  | [] => none

/-- bincode writes an `Option` as a one-byte tag (0 none / 1 some)
followed by the payload. -/
def encOptWith {α : Type} (enc : α → List Byte) : Option α → List Byte
  | none => [byteOf 0]
  | some a => byteOf 1 :: enc a

/-- Read an `Option` given a payload reader. -/
def decOptWith {α : Type} (dec : List Byte → Option (α × List Byte)) :
    List Byte → Option (Option α × List Byte)
  | [] => none
  | b :: r =>
    if b.val = 0 then some (none, r)
    else if b.val = 1 then
      match dec r with
      | none => none
      | some (a, r2) => some (some a, r2)
    else none

/-- bincode writes a `Vec` as a `u64` length followed by the elements. -/
def encListWith {α : Type} (enc : α → List Byte) (l : List α) : List Byte :=
  encU64 l.length ++ (l.map enc).flatten

/-- Read `n` elements with a payload reader. -/
def decListWithN {α : Type} (dec : List Byte → Option (α × List Byte)) :
    Nat → List Byte → Option (List α × List Byte)
  | 0, l => some ([], l)
  | n + 1, l =>
    match dec l with
    | none => none
    | some (a, r) =>
      match decListWithN dec n r with
      | none => none
      | some (as, r2) => some (a :: as, r2)

/-- Read a length-prefixed sequence with a payload reader. -/
def decListWith {α : Type} (dec : List Byte → Option (α × List Byte)) (l : List Byte) :
    Option (List α × List Byte) :=
  match decU64 l with
  | none => none
  | some (n, r) => decListWithN dec n r

/-- Decimal digits of `n` (ASCII bytes, most significant first), with
explicit recursion fuel; fuel 64 is exact for every number below 10^64,
which covers all values formatted here. -/
def natDigitsFuel : Nat → Nat → List Byte
  | 0, _ => []
  | fuel + 1, n =>
    if n < 10 then [byteOf (48 + n)]
    else natDigitsFuel fuel (n / 10) ++ [byteOf (48 + n % 10)]

/-- Decimal digits of `n`, exact for n < 10^64. -/
def natDigits (n : Nat) : List Byte := natDigitsFuel 64 n

/-- Exactly two decimal digits (for n ≤ 99). -/
def pad2 (n : Nat) : List Byte := [byteOf (48 + n / 10), byteOf (48 + n % 10)]

/-- Exactly four decimal digits (for n ≤ 9999). -/
def pad4 (n : Nat) : List Byte :=
  [byteOf (48 + n / 1000), byteOf (48 + n / 100 % 10), byteOf (48 + n / 10 % 10),
   byteOf (48 + n % 10)]

/-- ASCII digit test. -/
def isDigitB (b : Byte) : Bool := 48 ≤ b.val && b.val ≤ 57

/-- Fold ASCII digits, most significant first. -/
def parseNatAcc (acc : Nat) (l : List Byte) : Nat :=
  l.foldl (fun a b => a * 10 + (b.val - 48)) acc

/-- Read a maximal nonempty run of digits. -/
def parseNatRun (l : List Byte) : Option (Nat × List Byte) :=
  if (l.span isDigitB).1.isEmpty then none
  else some (parseNatAcc 0 (l.span isDigitB).1, (l.span isDigitB).2)

/-- Read exactly two digits. -/
def parse2 : List Byte → Option (Nat × List Byte)
  | a :: b :: r =>
    if isDigitB a && isDigitB b then some ((a.val - 48) * 10 + (b.val - 48), r) else none
  | _ => none

/-- Expect one specific byte. -/
def expectB (c : Nat) : List Byte → Option (List Byte)
  | [] => none
  | b :: r => if b.val = c then some r else none

/-- A chrono `NaiveDate`, as year / month / day. -/
structure NDate where
  y : Int
  m : Nat
  d : Nat
deriving DecidableEq, Repr

/-- Type invariant of a chrono `NaiveDate` as far as its textual
round-trip needs it: chrono's year range and calendar month/day bounds. -/
def NDate.wfb (x : NDate) : Bool :=
  (-262144 ≤ x.y && x.y ≤ 262143) && (1 ≤ x.m && x.m ≤ 12) && (1 ≤ x.d && x.d ≤ 31)

/-- chrono `%Y` formatting of a year: four zero-padded digits inside
0..=9999, an explicit sign outside. -/
def fmtYear (y : Int) : List Byte :=
  if 0 ≤ y ∧ y ≤ 9999 then pad4 y.toNat
  else if 9999 < y then byteOf 43 :: natDigits y.toNat
  else byteOf 45 :: (if -9999 ≤ y then pad4 (-y).toNat else natDigits (-y).toNat)

/-- Read a `%Y` year: optional sign, then a digit run. -/
def parseYear (l : List Byte) : Option (Int × List Byte) :=
  match l with
  | [] => none
  | b :: r =>
    if b.val = 43 then
      match parseNatRun r with
      | none => none
      | some (n, r2) => some ((n : Int), r2)
    else if b.val = 45 then
      match parseNatRun r with
      | none => none
      | some (n, r2) => some (-(n : Int), r2)
    else
      match parseNatRun l with
      | none => none
      | some (n, r2) => some ((n : Int), r2)

/-- Modelled from the spec: chrono serializes a `NaiveDate` through serde
as its ISO-8601 text `%Y-%m-%d` (chrono is external to the repository;
this is its documented serde format). -/
def fmtDate (x : NDate) : List Byte :=
  fmtYear x.y ++ byteOf 45 :: (pad2 x.m ++ byteOf 45 :: pad2 x.d)

/-- Read a `%Y-%m-%d` date. -/
def parseDate (l : List Byte) : Option (NDate × List Byte) :=
  match parseYear l with
  | none => none
  | some (y, r1) =>
    match expectB 45 r1 with
    | none => none
    | some r2 =>
      match parse2 r2 with
      | none => none
      | some (m, r3) =>
        match expectB 45 r3 with
        | none => none
        | some r4 =>
          match parse2 r4 with
          | none => none
          | some (d, r5) => some (⟨y, m, d⟩, r5)

/-- serde decodes a `NaiveDate` from a whole string; trailing bytes are a
decode error. -/
def parseDateFull (s : Str) : Option NDate :=
  match parseDate s with
  | some (x, []) => some x
  | _ => none

/-- A `NaiveDate` on the bincode wire: its ISO text as a length-prefixed
string. -/
def encDate (x : NDate) : List Byte := encStr (fmtDate x)

/-- Read a wire `NaiveDate`. -/
def decDate (l : List Byte) : Option (NDate × List Byte) :=
  match decStr l with
  | none => none
  | some (s, r) =>
    match parseDateFull s with
    | none => none
    | some x => some (x, r)

/-- A chrono `DateTime<Utc>`, at the seconds precision the model keeps. -/
structure NDateTime where
  date : NDate
  hh : Nat
  mi : Nat
  ss : Nat
deriving DecidableEq, Repr

/-- Type invariant of the modelled `DateTime<Utc>`. -/
def NDateTime.wfb (x : NDateTime) : Bool :=
  x.date.wfb && (x.hh ≤ 23 && (x.mi ≤ 59 && x.ss ≤ 59))

/-- Modelled from the spec: chrono serializes a `DateTime<Utc>` through
serde as RFC-3339 text with an explicit +00:00 offset (chrono is external
to the repository; sub-second digits are dropped in this model, which is
exact for whole-second times). -/
def fmtDateTime (x : NDateTime) : List Byte :=
  fmtDate x.date ++ byteOf 84 :: (pad2 x.hh ++ byteOf 58 :: (pad2 x.mi ++ byteOf 58 ::
    (pad2 x.ss ++ [byteOf 43, byteOf 48, byteOf 48, byteOf 58, byteOf 48, byteOf 48])))

/-- Read the RFC-3339 text back. -/
def parseDateTime (l : List Byte) : Option (NDateTime × List Byte) :=
  match parseDate l with
  | none => none
  | some (dt, r1) =>
    match expectB 84 r1 with
    | none => none
    | some r2 =>
      match parse2 r2 with
      | none => none
      | some (hh, r3) =>
        match expectB 58 r3 with
        | none => none
        | some r4 =>
          match parse2 r4 with
          | none => none
          | some (mi, r5) =>
            match expectB 58 r5 with
            | none => none
            | some r6 =>
              match parse2 r6 with
              | none => none
              | some (ss, r7) =>
                match expectB 43 r7 with
                | none => none
                | some r8 =>
                  match expectB 48 r8 with
                  | none => none
                  | some r9 =>
                    match expectB 48 r9 with
                    | none => none
                    | some r10 =>
                      match expectB 58 r10 with
                      | none => none
                      | some r11 =>
                        match expectB 48 r11 with
                        | none => none
                        | some r12 =>
                          match expectB 48 r12 with
                          | none => none
                          | some r13 => some (⟨dt, hh, mi, ss⟩, r13)

/-- serde decodes a `DateTime<Utc>` from a whole string. -/
def parseDateTimeFull (s : Str) : Option NDateTime :=
  match parseDateTime s with
  | some (x, []) => some x
  | _ => none

/-- A `DateTime<Utc>` on the bincode wire: its text as a length-prefixed
string. -/
def encDateTime (x : NDateTime) : List Byte := encStr (fmtDateTime x)

/-- Read a wire `DateTime<Utc>`. -/
def decDateTime (l : List Byte) : Option (NDateTime × List Byte) :=
  match decStr l with
  | none => none
  | some (s, r) =>
    match parseDateTimeFull s with
    | none => none
    | some x => some (x, r)

/-- `enum OrderType` from `degiro/src/lib.rs`; it derives `Serialize_repr`
with `repr(u8)`, so it travels as one byte. -/
inductive OrderType where
  | limit
  | stopLimit
  | market
  | stopLoss
  | trailingStop
deriving DecidableEq, Repr

/-- The `repr(u8)` value of an order type. -/
def OrderType.toU8 : OrderType → Nat
  | .limit => 0
  | .stopLimit => 1
  | .market => 2
  | .stopLoss => 3
  | .trailingStop => 4

/-- One byte on the wire. -/
def encOrderType (t : OrderType) : List Byte := [byteOf t.toU8]

/-- Read an order type byte. -/
def decOrderType : List Byte → Option (OrderType × List Byte)
  | b :: r =>
    if b.val = 0 then some (.limit, r)
    else if b.val = 1 then some (.stopLimit, r)
    else if b.val = 2 then some (.market, r)
    else if b.val = 3 then some (.stopLoss, r)
    else if b.val = 4 then some (.trailingStop, r)
    else none
  | [] => none

/-- `enum ProductCategory` from `degiro/src/lib.rs` (A..G); a plain serde
enum, so bincode writes its `u32` variant tag. -/
inductive ProductCategory where
  | A
  | B
  | C
  | D
  | E
  | F
  | G
deriving DecidableEq, Repr

/-- Variant tag of a product category. -/
def ProductCategory.tag : ProductCategory → Nat
  | .A => 0
  | .B => 1
  | .C => 2
  | .D => 3
  | .E => 4
  | .F => 5
  | .G => 6

/-- `u32` tag on the wire. -/
def encCategory (c : ProductCategory) : List Byte := encU32 c.tag

/-- Read a product category tag. -/
def decCategory (l : List Byte) : Option (ProductCategory × List Byte) :=
  match decU32 l with
  | none => none
  | some (t, r) =>
    if t = 0 then some (.A, r)
    else if t = 1 then some (.B, r)
    else if t = 2 then some (.C, r)
    else if t = 3 then some (.D, r)
    else if t = 4 then some (.E, r)
    else if t = 5 then some (.F, r)
    else if t = 6 then some (.G, r)
    else none

/-- Modelled from the spec: the `degiro_rs` snapshot whose
`ProductDetails` the server serializes is not under src/; the spec's data
model gives an instrument its id, symbol, display name, category,
tradable flags, allowed order types and last close price/date, serialized
field by field in this order. -/
structure ProductDetailsW where
  id : Str
  symbol : Str
  name : Str
  category : ProductCategory
  active : Bool
  tradable : Bool
  allowedOrderTypes : List OrderType
  closePrice : F64
  closePriceDate : NDate
deriving DecidableEq, Repr

/-- Type invariant: string and collection lengths fit `usize`, the date is
a valid chrono date. -/
def ProductDetailsW.wfb (p : ProductDetailsW) : Bool :=
  decide (p.id.length < 2 ^ 64) && decide (p.symbol.length < 2 ^ 64) &&
  decide (p.name.length < 2 ^ 64) && decide (p.allowedOrderTypes.length < 2 ^ 64) &&
  p.closePriceDate.wfb

/-- Serialize an instrument record field by field. -/
def encProductDetails (p : ProductDetailsW) : List Byte :=
  encStr p.id ++ encStr p.symbol ++ encStr p.name ++ encCategory p.category ++
  encBool p.active ++ encBool p.tradable ++ encListWith encOrderType p.allowedOrderTypes ++
  encF64 p.closePrice ++ encDate p.closePriceDate

/-- Read an instrument record. -/
def decProductDetails (l : List Byte) : Option (ProductDetailsW × List Byte) :=
  match decStr l with
  | none => none
  | some (i, r1) =>
    match decStr r1 with
    | none => none
    | some (sym, r2) =>
      match decStr r2 with
      | none => none
      | some (nm, r3) =>
        match decCategory r3 with
        | none => none
        | some (cat, r4) =>
          match decBool r4 with
          | none => none
          | some (act, r5) =>
            match decBool r5 with
            | none => none
            | some (trd, r6) =>
              match decListWith decOrderType r6 with
              | none => none
              | some (ots, r7) =>
                match decF64 r7 with
                | none => none
                | some (cp, r8) =>
                  match decDate r8 with
                  | none => none
                  | some (cpd, r9) => some (⟨i, sym, nm, cat, act, trd, ots, cp, cpd⟩, r9)

/-- Modelled from the spec: the auxiliary financial-statements report is
keyed by instrument id and otherwise treated as an opaque serialized
payload. -/
structure FinancialReportsW where
  id : Str
  body : Str
deriving DecidableEq, Repr

/-- Type invariant: lengths fit `usize`. -/
def FinancialReportsW.wfb (f : FinancialReportsW) : Bool :=
  decide (f.id.length < 2 ^ 64) && decide (f.body.length < 2 ^ 64)

/-- Serialize a financial report. -/
def encFinancialReports (f : FinancialReportsW) : List Byte :=
  encStr f.id ++ encStr f.body

/-- Read a financial report. -/
def decFinancialReports (l : List Byte) : Option (FinancialReportsW × List Byte) :=
  match decStr l with
  | none => none
  | some (i, r1) =>
    match decStr r1 with
    | none => none
    | some (b, r2) => some (⟨i, b⟩, r2)

/-- `erfurt` `Candles` (erfurt/src/candle.rs) as serialized by the serde
derive of the snapshot the server uses: symbol, the four OHLC vectors, an
optional volume vector and the time vector, in declaration order. -/
structure CandlesW where
  symbol : Str
  opn : List F64
  hi : List F64
  lo : List F64
  cl : List F64
  volume : Option (List F64)
  time : List NDateTime
deriving DecidableEq, Repr

/-- Type invariant: lengths fit `usize`, all times are valid chrono
datetimes. -/
def CandlesW.wfb (c : CandlesW) : Bool :=
  decide (c.symbol.length < 2 ^ 64) && decide (c.opn.length < 2 ^ 64) &&
  decide (c.hi.length < 2 ^ 64) && decide (c.lo.length < 2 ^ 64) &&
  decide (c.cl.length < 2 ^ 64) &&
  (match c.volume with
   | none => true
   | some v => decide (v.length < 2 ^ 64)) &&
  decide (c.time.length < 2 ^ 64) && c.time.all (·.wfb)

/-- Serialize a candle series. -/
def encCandles (c : CandlesW) : List Byte :=
  encStr c.symbol ++ encListWith encF64 c.opn ++ encListWith encF64 c.hi ++
  encListWith encF64 c.lo ++ encListWith encF64 c.cl ++
  encOptWith (encListWith encF64) c.volume ++ encListWith encDateTime c.time

/-- Read a candle series. -/
def decCandles (l : List Byte) : Option (CandlesW × List Byte) :=
  match decStr l with
  | none => none
  | some (sym, r1) =>
    match decListWith decF64 r1 with
    | none => none
    | some (o, r2) =>
      match decListWith decF64 r2 with
      | none => none
      | some (h, r3) =>
        match decListWith decF64 r3 with
        | none => none
        | some (lo, r4) =>
          match decListWith decF64 r4 with
          | none => none
          | some (cl, r5) =>
            match decOptWith (decListWith decF64) r5 with
            | none => none
            | some (vol, r6) =>
              match decListWith decDateTime r6 with
              | none => none
              | some (tm, r7) => some (⟨sym, o, h, lo, cl, vol, tm⟩, r7)

/-- `enum ProductQuery` (src/puppet/db.rs) on the wire: Id, Symbol or Name
with a string payload, tagged 0/1/2. -/
inductive ProductQueryW where
  | byId (s : Str)
  | bySymbol (s : Str)
  | byName (s : Str)
deriving DecidableEq, Repr

/-- Type invariant: the payload length fits `usize`. -/
def ProductQueryW.wfb : ProductQueryW → Bool
  | .byId s | .bySymbol s | .byName s => decide (s.length < 2 ^ 64)

/-- Serialize a product query. -/
def encProductQueryW : ProductQueryW → List Byte
  | .byId s => encU32 0 ++ encStr s
  | .bySymbol s => encU32 1 ++ encStr s
  | .byName s => encU32 2 ++ encStr s

/-- Read a product query. -/
def decProductQueryW (l : List Byte) : Option (ProductQueryW × List Byte) :=
  match decU32 l with
  | none => none
  | some (t, r) =>
    if t = 0 then
      match decStr r with
      | none => none
      | some (s, r2) => some (.byId s, r2)
    else if t = 1 then
      match decStr r with
      | none => none
      | some (s, r2) => some (.bySymbol s, r2)
    else if t = 2 then
      match decStr r with
      | none => none
      | some (s, r2) => some (.byName s, r2)
    else none

/-- `enum RiskMode` (src/portfolio.rs) on the wire: tag 0 (STD) or
1 (LSV). -/
def encRiskMode : RiskMode → List Byte
  | .std => encU32 0
  | .lsv => encU32 1

/-- Read a risk mode. -/
def decRiskMode (l : List Byte) : Option (RiskMode × List Byte) :=
  match decU32 l with
  | none => none
  | some (t, r) =>
    if t = 0 then some (.std, r)
    else if t = 1 then some (.lsv, r)
    else none

/-- `enum Request` from `src/server.rs`: the tagged union the RPC client
sends, with variant tags 0..11 in declaration order. -/
inductive Request where
  | authorize
  | fetchData (id : Option Str)
  | getProduct (query : ProductQueryW)
  | getFinancials (query : ProductQueryW)
  | getCandles (query : ProductQueryW)
  | getSingleAllocation (query : ProductQueryW) (mode : RiskMode) (risk riskFree : F64)
  | calculatePortfolio (mode : RiskMode) (risk riskFree : F64) (freq : Nat) (money : F64)
      (maxStocks : Nat) (minRsi maxRsi minDd maxDd : Option F64)
      (minClass maxClass : Option ProductCategory) (shortSalesConstraint : Bool)
      (minRoic roicWaccDelta : Option F64)
  | recalculateSl (nstd : Nat) (maxPercent : Option F64)
  | getPortfolio
  | getTransactions (fromDate toDate : NDate)
  | getOrders
  | cleanUp
deriving DecidableEq, Repr

/-- Type invariant of a `Request` value: every string fits `usize`, every
`usize` field is below 2^64, every date is a valid chrono date. -/
def Request.wfb : Request → Bool
  | .authorize | .getPortfolio | .getOrders | .cleanUp => true
  | .fetchData i =>
    match i with
    | none => true
    | some s => decide (s.length < 2 ^ 64)
  | .getProduct q | .getFinancials q | .getCandles q => q.wfb
  | .getSingleAllocation q _ _ _ => q.wfb
  | .calculatePortfolio _ _ _ freq _ maxStocks _ _ _ _ _ _ _ _ _ =>
    decide (freq < 2 ^ 64) && decide (maxStocks < 2 ^ 64)
  | .recalculateSl nstd _ => decide (nstd < 2 ^ 64)
  | .getTransactions a b => a.wfb && b.wfb

/-- bincode serialization of a `Request`. -/
def encRequest : Request → List Byte
  | .authorize => encU32 0
  | .fetchData i => encU32 1 ++ encOptWith encStr i
  | .getProduct q => encU32 2 ++ encProductQueryW q
  | .getFinancials q => encU32 3 ++ encProductQueryW q
  | .getCandles q => encU32 4 ++ encProductQueryW q
  | .getSingleAllocation q mode risk riskFree =>
    encU32 5 ++ encProductQueryW q ++ encRiskMode mode ++ encF64 risk ++ encF64 riskFree
  | .calculatePortfolio mode risk riskFree freq money maxStocks minRsi maxRsi minDd maxDd
      minClass maxClass ssc minRoic rwd =>
    encU32 6 ++ encRiskMode mode ++ encF64 risk ++ encF64 riskFree ++ encU64 freq ++
    encF64 money ++ encU64 maxStocks ++ encOptWith encF64 minRsi ++ encOptWith encF64 maxRsi ++
    encOptWith encF64 minDd ++ encOptWith encF64 maxDd ++ encOptWith encCategory minClass ++
    encOptWith encCategory maxClass ++ encBool ssc ++ encOptWith encF64 minRoic ++
    encOptWith encF64 rwd
  | .recalculateSl nstd maxPercent => encU32 7 ++ encU64 nstd ++ encOptWith encF64 maxPercent
  | .getPortfolio => encU32 8
  | .getTransactions a b => encU32 9 ++ encDate a ++ encDate b
  | .getOrders => encU32 10
  | .cleanUp => encU32 11

/-- bincode deserialization of a `Request`. -/
def decRequest (l : List Byte) : Option (Request × List Byte) :=
  match decU32 l with
  | none => none
  | some (t, r) =>
    if t = 0 then some (.authorize, r)
    else if t = 1 then
      match decOptWith decStr r with
      | none => none
      | some (i, r2) => some (.fetchData i, r2)
    else if t = 2 then
      match decProductQueryW r with
      | none => none
      | some (q, r2) => some (.getProduct q, r2)
    else if t = 3 then
      match decProductQueryW r with
      | none => none
      | some (q, r2) => some (.getFinancials q, r2)
    else if t = 4 then
      match decProductQueryW r with
      | none => none
      | some (q, r2) => some (.getCandles q, r2)
    else if t = 5 then
      match decProductQueryW r with
      | none => none
      | some (q, r2) =>
        match decRiskMode r2 with
        | none => none
        | some (mode, r3) =>
          match decF64 r3 with
          | none => none
          | some (risk, r4) =>
            match decF64 r4 with
            | none => none
            | some (riskFree, r5) => some (.getSingleAllocation q mode risk riskFree, r5)
    else if t = 6 then
      match decRiskMode r with
      | none => none
      | some (mode, r2) =>
        match decF64 r2 with
        | none => none
        | some (risk, r3) =>
          match decF64 r3 with
          | none => none
          | some (riskFree, r4) =>
            match decU64 r4 with
            | none => none
            | some (freq, r5) =>
              match decF64 r5 with
              | none => none
              | some (money, r6) =>
                match decU64 r6 with
                | none => none
                | some (maxStocks, r7) =>
                  match decOptWith decF64 r7 with
                  | none => none
                  | some (minRsi, r8) =>
                    match decOptWith decF64 r8 with
                    | none => none
                    | some (maxRsi, r9) =>
                      match decOptWith decF64 r9 with
                      | none => none
                      | some (minDd, r10) =>
                        match decOptWith decF64 r10 with
                        | none => none
                        | some (maxDd, r11) =>
                          match decOptWith decCategory r11 with
                          | none => none
                          | some (minClass, r12) =>
                            match decOptWith decCategory r12 with
                            | none => none
                            | some (maxClass, r13) =>
                              match decBool r13 with
                              | none => none
                              | some (ssc, r14) =>
                                match decOptWith decF64 r14 with
                                | none => none
                                | some (minRoic, r15) =>
                                  match decOptWith decF64 r15 with
                                  | none => none
                                  | some (rwd, r16) =>
                                    some (.calculatePortfolio mode risk riskFree freq money
                                      maxStocks minRsi maxRsi minDd maxDd minClass maxClass
                                      ssc minRoic rwd, r16)
    else if t = 7 then
      match decU64 r with
      | none => none
      | some (nstd, r2) =>
        match decOptWith decF64 r2 with
        | none => none
        | some (mp, r3) => some (.recalculateSl nstd mp, r3)
    else if t = 8 then some (.getPortfolio, r)
    else if t = 9 then
      match decDate r with
      | none => none
      | some (a, r2) =>
        match decDate r2 with
        | none => none
        | some (b, r3) => some (.getTransactions a b, r3)
    else if t = 10 then some (.getOrders, r)
    else if t = 11 then some (.cleanUp, r)
    else none

/-- `enum Response` from `src/server.rs`: the tagged union the server
sends back, with variant tags 0..9 in declaration order. -/
inductive Response where
  | sendProduct (product : Option ProductDetailsW)
  | sendFinancials (financials : Option FinancialReportsW)
  | sendCandles (candles : Option CandlesW)
  | sendSingleAllocation (singleAllocation : Option F64)
  | sendPortfolio (portfolio : Option Str)
  | sendRecalcucatetSl (table : Option Str)
  | sendPortfolioSl (table : Option Str)
  | sendTransactions (table : Option Str)
  | sendOrders (table : Option Str)
  | sendCleanUp
deriving DecidableEq, Repr

/-- Type invariant of a `Response` value. -/
def Response.wfb : Response → Bool
  | .sendCleanUp => true
  | .sendProduct p =>
    match p with
    | none => true
    | some x => x.wfb
  | .sendFinancials f =>
    match f with
    | none => true
    | some x => x.wfb
  | .sendCandles c =>
    match c with
    | none => true
    | some x => x.wfb
  | .sendSingleAllocation _ => true
  | .sendPortfolio s | .sendRecalcucatetSl s | .sendPortfolioSl s
  | .sendTransactions s | .sendOrders s =>
    match s with
    | none => true
    | some x => decide (x.length < 2 ^ 64)

/-- bincode serialization of a `Response`. -/
def encResponse : Response → List Byte
  | .sendProduct p => encU32 0 ++ encOptWith encProductDetails p
  | .sendFinancials f => encU32 1 ++ encOptWith encFinancialReports f
  | .sendCandles c => encU32 2 ++ encOptWith encCandles c
  | .sendSingleAllocation x => encU32 3 ++ encOptWith encF64 x
  | .sendPortfolio s => encU32 4 ++ encOptWith encStr s
  | .sendRecalcucatetSl s => encU32 5 ++ encOptWith encStr s
  | .sendPortfolioSl s => encU32 6 ++ encOptWith encStr s
  | .sendTransactions s => encU32 7 ++ encOptWith encStr s
  | .sendOrders s => encU32 8 ++ encOptWith encStr s
  | .sendCleanUp => encU32 9

/-- bincode deserialization of a `Response`. -/
def decResponse (l : List Byte) : Option (Response × List Byte) :=
  match decU32 l with
  | none => none
  | some (t, r) =>
    if t = 0 then
      match decOptWith decProductDetails r with
      | none => none
      | some (p, r2) => some (.sendProduct p, r2)
    else if t = 1 then
      match decOptWith decFinancialReports r with
      | none => none
      | some (f, r2) => some (.sendFinancials f, r2)
    else if t = 2 then
      match decOptWith decCandles r with
      | none => none
      | some (c, r2) => some (.sendCandles c, r2)
    else if t = 3 then
      match decOptWith decF64 r with
      | none => none
      | some (x, r2) => some (.sendSingleAllocation x, r2)
    else if t = 4 then
      match decOptWith decStr r with
      | none => none
      | some (s, r2) => some (.sendPortfolio s, r2)
    else if t = 5 then
      match decOptWith decStr r with
      | none => none
      | some (s, r2) => some (.sendRecalcucatetSl s, r2)
    else if t = 6 then
      match decOptWith decStr r with
      | none => none
      | some (s, r2) => some (.sendPortfolioSl s, r2)
    else if t = 7 then
      match decOptWith decStr r with
      | none => none
      | some (s, r2) => some (.sendTransactions s, r2)
    else if t = 8 then
      match decOptWith decStr r with
      | none => none
      | some (s, r2) => some (.sendOrders s, r2)
    else if t = 9 then some (.sendCleanUp, r)
    else none

theorem byteOf_val (n : Nat) : (byteOf n).val = n % 256 := rfl

theorem decU32_enc (n : Nat) (h : n < 2 ^ 32) (r : List Byte) :
    decU32 (encU32 n ++ r) = some (n, r) := by
  simp only [encU32, decU32, List.cons_append, List.nil_append, byteOf_val]
  congr 2
  omega

theorem decU64_enc (n : Nat) (h : n < 2 ^ 64) (r : List Byte) :
    decU64 (encU64 n ++ r) = some (n, r) := by
  simp only [encU64, decU64, List.cons_append, List.nil_append, byteOf_val]
  congr 2
  omega

theorem decTake_len (l r : List Byte) : decTake l.length (l ++ r) = some (l, r) := by
  induction l with
  | nil => rfl
  | cons b bs ih => simp [decTake, ih]

theorem decStr_enc (s : Str) (h : s.length < 2 ^ 64) (r : List Byte) :
    decStr (encStr s ++ r) = some (s, r) := by
  simp only [encStr, decStr, List.append_assoc, decU64_enc s.length h (s ++ r)]
  exact decTake_len s r

theorem decF64_enc (x : F64) (r : List Byte) : decF64 (encF64 x ++ r) = some (x, r) := by
  cases x
  rfl

theorem decBool_enc (b : Bool) (r : List Byte) : decBool (encBool b ++ r) = some (b, r) := by
  cases b <;> rfl

theorem decOptWith_enc {α : Type} (enc : α → List Byte)
    (dec : List Byte → Option (α × List Byte)) (o : Option α) (r : List Byte)
    (h : ∀ a, o = some a → dec (enc a ++ r) = some (a, r)) :
    decOptWith dec (encOptWith enc o ++ r) = some (o, r) := by
  cases o with
  | none => rfl
  | some a =>
    simp only [encOptWith, List.cons_append, decOptWith, byteOf_val]
    norm_num
    rw [h a rfl]

theorem decListWithN_enc {α : Type} (enc : α → List Byte)
    (dec : List Byte → Option (α × List Byte)) (l : List α) (r : List Byte)
    (h : ∀ a ∈ l, ∀ r2, dec (enc a ++ r2) = some (a, r2)) :
    decListWithN dec l.length ((l.map enc).flatten ++ r) = some (l, r) := by
  induction l with
  | nil => rfl
  | cons a as ih =>
    have ha := h a (by simp)
    have hrest := ih (fun x hx r2 => h x (by simp [hx]) r2)
    simp only [List.map_cons, List.flatten_cons, List.length_cons, List.append_assoc,
      decListWithN, ha, hrest]

theorem decListWith_enc {α : Type} (enc : α → List Byte)
    (dec : List Byte → Option (α × List Byte)) (l : List α) (r : List Byte)
    (hlen : l.length < 2 ^ 64)
    (h : ∀ a ∈ l, ∀ r2, dec (enc a ++ r2) = some (a, r2)) :
    decListWith dec (encListWith enc l ++ r) = some (l, r) := by
  simp only [encListWith, decListWith, List.append_assoc,
    decU64_enc l.length hlen, decListWithN_enc enc dec l r h]

theorem natDigitsFuel_length (f n : Nat) : (natDigitsFuel f n).length ≤ f := by
  induction f generalizing n with
  | zero => simp [natDigitsFuel]
  | succ f ih =>
    simp only [natDigitsFuel]
    split
    · simp
    · simpa using Nat.succ_le_succ (ih (n / 10))

theorem natDigitsFuel_ne_nil (f n : Nat) (hf : 0 < f) : natDigitsFuel f n ≠ [] := by
  cases f with
  | zero => omega
  | succ f =>
    simp only [natDigitsFuel]
    split
    · simp
    · simp

theorem natDigitsFuel_digits (f n : Nat) : ∀ b ∈ natDigitsFuel f n, isDigitB b = true := by
  induction f generalizing n with
  | zero => simp [natDigitsFuel]
  | succ f ih =>
    intro b hb
    simp only [natDigitsFuel] at hb
    split at hb
    · rename_i hlt
      simp only [List.mem_singleton] at hb
      subst hb
      simp only [isDigitB, byteOf_val, Bool.and_eq_true, decide_eq_true_eq]
      omega
    · rcases List.mem_append.mp hb with h1 | h2
      · exact ih (n / 10) b h1
      · simp only [List.mem_singleton] at h2
        subst h2
        simp only [isDigitB, byteOf_val, Bool.and_eq_true, decide_eq_true_eq]
        omega

theorem parseNatAcc_append (xs ys : List Byte) (acc : Nat) :
    parseNatAcc acc (xs ++ ys) = parseNatAcc (parseNatAcc acc xs) ys := by
  simp [parseNatAcc, List.foldl_append]

theorem parseNatAcc_digits (f n acc : Nat) (h : n < 10 ^ f) :
    ∃ k, parseNatAcc acc (natDigitsFuel f n) = acc * 10 ^ k + n := by
  induction f generalizing n acc with
  | zero =>
    have hz : n = 0 := by simpa using h
    subst hz
    exact ⟨0, by simp [natDigitsFuel, parseNatAcc]⟩
  | succ f ih =>
    by_cases hlt : n < 10
    · refine ⟨1, ?_⟩
      rw [show natDigitsFuel (f + 1) n = [byteOf (48 + n)] from by
        simp [natDigitsFuel, hlt]]
      simp only [parseNatAcc, List.foldl_cons, List.foldl_nil, byteOf_val, pow_one]
      omega
    · have hdiv : n / 10 < 10 ^ f := by
        rw [Nat.div_lt_iff_lt_mul (by norm_num)]
        calc n < 10 ^ (f + 1) := h
        _ = 10 ^ f * 10 := by ring
      obtain ⟨k, hk⟩ := ih (n / 10) acc hdiv
      refine ⟨k + 1, ?_⟩
      rw [show natDigitsFuel (f + 1) n
          = natDigitsFuel f (n / 10) ++ [byteOf (48 + n % 10)] from by
        simp [natDigitsFuel, hlt]]
      rw [parseNatAcc_append, hk]
      simp only [parseNatAcc, List.foldl_cons, List.foldl_nil, byteOf_val]
      rw [pow_succ, show acc * (10 ^ k * 10) = acc * 10 ^ k * 10 from by ring]
      generalize acc * 10 ^ k = A
      omega

theorem span_digits_append (ds r : List Byte) (hds : ∀ b ∈ ds, isDigitB b = true)
    (hr : ∀ b, r.head? = some b → isDigitB b = false) :
    (ds ++ r).span isDigitB = (ds, r) := by
  rw [List.span_eq_take_drop, Prod.mk.injEq]
  constructor
  · induction ds with
    | nil =>
      cases r with
      | nil => rfl
      | cons b bs =>
        simp only [List.nil_append, List.takeWhile_cons]
        rw [hr b rfl]
        simp
    | cons a as ih =>
      simp only [List.cons_append, List.takeWhile_cons]
      rw [hds a (by simp)]
      simp only [if_true]
      rw [ih (fun b hb => hds b (by simp [hb]))]
  · induction ds with
    | nil =>
      cases r with
      | nil => rfl
      | cons b bs =>
        simp only [List.nil_append, List.dropWhile_cons]
        rw [hr b rfl]
        simp
    | cons a as ih =>
      simp only [List.cons_append, List.dropWhile_cons]
      rw [hds a (by simp)]
      simpa using ih (fun b hb => hds b (by simp [hb]))

theorem parseNatRun_digits (n : Nat) (hn : n < 10 ^ 64) (r : List Byte)
    (hr : ∀ b, r.head? = some b → isDigitB b = false) :
    parseNatRun (natDigits n ++ r) = some (n, r) := by
  have hne := natDigitsFuel_ne_nil 64 n (by norm_num)
  obtain ⟨k, hk⟩ := parseNatAcc_digits 64 n 0 hn
  simp only [parseNatRun, natDigits,
    span_digits_append _ _ (natDigitsFuel_digits 64 n) hr]
  rw [if_neg (by simpa using hne)]
  rw [hk]
  simp

theorem pad4_digits (t : Nat) (ht : t ≤ 9999) : ∀ b ∈ pad4 t, isDigitB b = true := by
  intro b hb
  simp only [pad4, List.mem_cons, List.mem_singleton, List.not_mem_nil, or_false] at hb
  rcases hb with h | h | h | h <;> subst h <;>
    simp only [isDigitB, byteOf_val, Bool.and_eq_true, decide_eq_true_eq] <;> omega

theorem parseNatRun_pad4 (t : Nat) (ht : t ≤ 9999) (r : List Byte)
    (hr : ∀ b, r.head? = some b → isDigitB b = false) :
    parseNatRun (pad4 t ++ r) = some (t, r) := by
  simp only [parseNatRun, span_digits_append _ _ (pad4_digits t ht) hr]
  rw [if_neg (by simp [pad4])]
  simp only [pad4, parseNatAcc, List.foldl_cons, List.foldl_nil, byteOf_val]
  congr 2
  omega

theorem parse2_pad2 (n : Nat) (hn : n ≤ 99) (r : List Byte) :
    parse2 (pad2 n ++ r) = some (n, r) := by
  simp only [pad2, List.cons_append, List.nil_append, parse2, isDigitB, byteOf_val]
  rw [if_pos (by simp only [Bool.and_eq_true, decide_eq_true_eq]; omega)]
  congr 2
  omega

theorem expectB_cons (c : Nat) (hc : c < 256) (r : List Byte) :
    expectB c (byteOf c :: r) = some r := by
  simp [expectB, byteOf_val, Nat.mod_eq_of_lt hc]

theorem head_byte45_not_digit (r : List Byte) :
    ∀ b, (byteOf 45 :: r).head? = some b → isDigitB b = false := by
  intro b hb
  simp only [List.head?_cons, Option.some.injEq] at hb
  subst hb
  rfl

theorem parseYear_fmt (y : Int) (hy : -262144 ≤ y ∧ y ≤ 262143) (r : List Byte) :
    parseYear (fmtYear y ++ byteOf 45 :: r) = some (y, byteOf 45 :: r) := by
  obtain ⟨hy1, hy2⟩ := hy
  by_cases h1 : 0 ≤ y ∧ y ≤ 9999
  · have ht : y.toNat ≤ 9999 := by omega
    rw [show fmtYear y = pad4 y.toNat from by rw [fmtYear, if_pos h1]]
    have hrun := parseNatRun_pad4 y.toNat ht (byteOf 45 :: r) (head_byte45_not_digit r)
    simp only [pad4, List.cons_append, List.nil_append] at hrun ⊢
    simp only [parseYear, byteOf_val]
    rw [if_neg (by omega), if_neg (by omega), hrun]
    simp only [Option.some.injEq, Prod.mk.injEq, and_true]
    omega
  · by_cases h2 : 9999 < y
    · have ht : y.toNat < 10 ^ 64 := by
        have : y.toNat ≤ 262143 := by omega
        omega
      rw [show fmtYear y = byteOf 43 :: natDigits y.toNat from by
        rw [fmtYear, if_neg h1, if_pos h2]]
      have hrun := parseNatRun_digits y.toNat ht (byteOf 45 :: r) (head_byte45_not_digit r)
      simp only [List.cons_append, parseYear, byteOf_val]
      rw [if_pos (by norm_num), hrun]
      simp only [Option.some.injEq, Prod.mk.injEq, and_true]
      omega
    · have hneg : y < 0 := by omega
      by_cases h3 : -9999 ≤ y
      · have ht : (-y).toNat ≤ 9999 := by omega
        rw [show fmtYear y = byteOf 45 :: pad4 (-y).toNat from by
          rw [fmtYear, if_neg h1, if_neg h2, if_pos h3]]
        have hrun := parseNatRun_pad4 (-y).toNat ht (byteOf 45 :: r) (head_byte45_not_digit r)
        simp only [List.cons_append, parseYear, byteOf_val]
        rw [if_neg (by norm_num), if_pos (by norm_num), hrun]
        simp only [Option.some.injEq, Prod.mk.injEq, and_true]
        omega
      · have ht : (-y).toNat < 10 ^ 64 := by
          have : (-y).toNat ≤ 262144 := by omega
          omega
        rw [show fmtYear y = byteOf 45 :: natDigits (-y).toNat from by
          rw [fmtYear, if_neg h1, if_neg h2, if_neg h3]]
        have hrun := parseNatRun_digits (-y).toNat ht (byteOf 45 :: r) (head_byte45_not_digit r)
        simp only [List.cons_append, parseYear, byteOf_val]
        rw [if_neg (by norm_num), if_pos (by norm_num), hrun]
        simp only [Option.some.injEq, Prod.mk.injEq, and_true]
        omega

theorem parseDate_fmt (x : NDate) (hx : x.wfb = true) (r : List Byte) :
    parseDate (fmtDate x ++ r) = some (x, r) := by
  simp only [NDate.wfb, Bool.and_eq_true, decide_eq_true_eq] at hx
  obtain ⟨⟨⟨hy1, hy2⟩, hm1, hm2⟩, hd1, hd2⟩ := hx
  have hsplit : fmtDate x ++ r
      = fmtYear x.y ++ byteOf 45 :: (pad2 x.m ++ byteOf 45 :: (pad2 x.d ++ r)) := by
    simp [fmtDate]
  rw [hsplit]
  have h1 := parseYear_fmt x.y ⟨hy1, hy2⟩ (pad2 x.m ++ byteOf 45 :: (pad2 x.d ++ r))
  have h2 := expectB_cons 45 (by norm_num) (pad2 x.m ++ byteOf 45 :: (pad2 x.d ++ r))
  have h3 := parse2_pad2 x.m (by omega) (byteOf 45 :: (pad2 x.d ++ r))
  have h4 := expectB_cons 45 (by norm_num) (pad2 x.d ++ r)
  have h5 := parse2_pad2 x.d (by omega) r
  simp only [parseDate, h1, h2, h3, h4, h5]

theorem parseDateFull_fmt (x : NDate) (hx : x.wfb = true) :
    parseDateFull (fmtDate x) = some x := by
  have h := parseDate_fmt x hx []
  rw [List.append_nil] at h
  simp [parseDateFull, h]

theorem fmtYear_length (y : Int) : (fmtYear y).length ≤ 65 := by
  rw [fmtYear]
  split
  · simp [pad4]
  · split
    · have := natDigitsFuel_length 64 y.toNat
      simp only [natDigits, List.length_cons]
      omega
    · split
      · simp [pad4]
      · have := natDigitsFuel_length 64 (-y).toNat
        simp only [natDigits, List.length_cons]
        omega

theorem fmtDate_length (x : NDate) : (fmtDate x).length < 2 ^ 64 := by
  have := fmtYear_length x.y
  simp only [fmtDate, List.length_append, List.length_cons, pad2]
  simp only [List.length_cons, List.length_nil]
  omega

theorem decDate_enc (x : NDate) (hx : x.wfb = true) (r : List Byte) :
    decDate (encDate x ++ r) = some (x, r) := by
  simp only [encDate, decDate, decStr_enc _ (fmtDate_length x) r, parseDateFull_fmt x hx]

theorem parseDateTime_fmt (x : NDateTime) (hx : x.wfb = true) (r : List Byte) :
    parseDateTime (fmtDateTime x ++ r) = some (x, r) := by
  simp only [NDateTime.wfb, Bool.and_eq_true, decide_eq_true_eq] at hx
  obtain ⟨hdt, hh, hmi, hss⟩ := hx
  have hsplit : fmtDateTime x ++ r
      = fmtDate x.date ++ byteOf 84 :: (pad2 x.hh ++ byteOf 58 :: (pad2 x.mi ++ byteOf 58 ::
        (pad2 x.ss ++ byteOf 43 :: byteOf 48 :: byteOf 48 :: byteOf 58 :: byteOf 48 ::
          byteOf 48 :: r))) := by
    simp [fmtDateTime]
  rw [hsplit]
  have h1 := parseDate_fmt x.date hdt (byteOf 84 :: (pad2 x.hh ++ byteOf 58 :: (pad2 x.mi ++
    byteOf 58 :: (pad2 x.ss ++ byteOf 43 :: byteOf 48 :: byteOf 48 :: byteOf 58 :: byteOf 48 ::
      byteOf 48 :: r))))
  have h2 := expectB_cons 84 (by norm_num) (pad2 x.hh ++ byteOf 58 :: (pad2 x.mi ++
    byteOf 58 :: (pad2 x.ss ++ byteOf 43 :: byteOf 48 :: byteOf 48 :: byteOf 58 :: byteOf 48 ::
      byteOf 48 :: r)))
  have h3 := parse2_pad2 x.hh (by omega) (byteOf 58 :: (pad2 x.mi ++ byteOf 58 ::
    (pad2 x.ss ++ byteOf 43 :: byteOf 48 :: byteOf 48 :: byteOf 58 :: byteOf 48 ::
      byteOf 48 :: r)))
  have h4 := expectB_cons 58 (by norm_num) (pad2 x.mi ++ byteOf 58 :: (pad2 x.ss ++ byteOf 43 ::
    byteOf 48 :: byteOf 48 :: byteOf 58 :: byteOf 48 :: byteOf 48 :: r))
  have h5 := parse2_pad2 x.mi (by omega) (byteOf 58 :: (pad2 x.ss ++ byteOf 43 :: byteOf 48 ::
    byteOf 48 :: byteOf 58 :: byteOf 48 :: byteOf 48 :: r))
  have h6 := expectB_cons 58 (by norm_num) (pad2 x.ss ++ byteOf 43 :: byteOf 48 :: byteOf 48 ::
    byteOf 58 :: byteOf 48 :: byteOf 48 :: r)
  have h7 := parse2_pad2 x.ss (by omega) (byteOf 43 :: byteOf 48 :: byteOf 48 :: byteOf 58 ::
    byteOf 48 :: byteOf 48 :: r)
  have h8 := expectB_cons 43 (by norm_num) (byteOf 48 :: byteOf 48 :: byteOf 58 :: byteOf 48 ::
    byteOf 48 :: r)
  have h9 := expectB_cons 48 (by norm_num) (byteOf 48 :: byteOf 58 :: byteOf 48 :: byteOf 48 :: r)
  have h10 := expectB_cons 48 (by norm_num) (byteOf 58 :: byteOf 48 :: byteOf 48 :: r)
  have h11 := expectB_cons 58 (by norm_num) (byteOf 48 :: byteOf 48 :: r)
  have h12 := expectB_cons 48 (by norm_num) (byteOf 48 :: r)
  have h13 := expectB_cons 48 (by norm_num) r
  simp only [parseDateTime, h1, h2, h3, h4, h5, h6, h7, h8, h9, h10, h11, h12, h13]

theorem parseDateTimeFull_fmt (x : NDateTime) (hx : x.wfb = true) :
    parseDateTimeFull (fmtDateTime x) = some x := by
  have h := parseDateTime_fmt x hx []
  rw [List.append_nil] at h
  simp [parseDateTimeFull, h]

theorem fmtDateTime_length (x : NDateTime) : (fmtDateTime x).length < 2 ^ 64 := by
  have h1 := fmtYear_length x.date.y
  simp only [fmtDateTime, fmtDate, pad2, List.length_append, List.length_cons, List.length_nil]
  omega

theorem decDateTime_enc (x : NDateTime) (hx : x.wfb = true) (r : List Byte) :
    decDateTime (encDateTime x ++ r) = some (x, r) := by
  simp only [encDateTime, decDateTime, decStr_enc _ (fmtDateTime_length x) r,
    parseDateTimeFull_fmt x hx]

theorem decOrderType_enc (t : OrderType) (r : List Byte) :
    decOrderType (encOrderType t ++ r) = some (t, r) := by
  cases t <;> simp [encOrderType, decOrderType, OrderType.toU8, byteOf_val]

theorem decCategory_enc (c : ProductCategory) (r : List Byte) :
    decCategory (encCategory c ++ r) = some (c, r) := by
  cases c with
  | A => simp [encCategory, decCategory, ProductCategory.tag, decU32_enc 0 (by norm_num) r]
  | B => simp [encCategory, decCategory, ProductCategory.tag, decU32_enc 1 (by norm_num) r]
  | C => simp [encCategory, decCategory, ProductCategory.tag, decU32_enc 2 (by norm_num) r]
  | D => simp [encCategory, decCategory, ProductCategory.tag, decU32_enc 3 (by norm_num) r]
  | E => simp [encCategory, decCategory, ProductCategory.tag, decU32_enc 4 (by norm_num) r]
  | F => simp [encCategory, decCategory, ProductCategory.tag, decU32_enc 5 (by norm_num) r]
  | G => simp [encCategory, decCategory, ProductCategory.tag, decU32_enc 6 (by norm_num) r]

theorem decRiskMode_enc (m : RiskMode) (r : List Byte) :
    decRiskMode (encRiskMode m ++ r) = some (m, r) := by
  cases m with
  | std => simp [encRiskMode, decRiskMode, decU32_enc 0 (by norm_num) r]
  | lsv => simp [encRiskMode, decRiskMode, decU32_enc 1 (by norm_num) r]

theorem decProductQueryW_enc (q : ProductQueryW) (hq : q.wfb = true) (r : List Byte) :
    decProductQueryW (encProductQueryW q ++ r) = some (q, r) := by
  cases q with
  | byId s =>
    simp only [ProductQueryW.wfb, decide_eq_true_eq] at hq
    simp [encProductQueryW, decProductQueryW, List.append_assoc,
      decU32_enc 0 (by norm_num), decStr_enc s hq r]
  | bySymbol s =>
    simp only [ProductQueryW.wfb, decide_eq_true_eq] at hq
    simp [encProductQueryW, decProductQueryW, List.append_assoc,
      decU32_enc 1 (by norm_num), decStr_enc s hq r]
  | byName s =>
    simp only [ProductQueryW.wfb, decide_eq_true_eq] at hq
    simp [encProductQueryW, decProductQueryW, List.append_assoc,
      decU32_enc 2 (by norm_num), decStr_enc s hq r]

theorem decProductDetails_enc (p : ProductDetailsW) (hp : p.wfb = true) (r : List Byte) :
    decProductDetails (encProductDetails p ++ r) = some (p, r) := by
  simp only [ProductDetailsW.wfb, Bool.and_eq_true, decide_eq_true_eq] at hp
  obtain ⟨⟨⟨⟨hid, hsym⟩, hnm⟩, hots⟩, hdate⟩ := hp
  have h1 := decStr_enc p.id hid
  have h2 := decStr_enc p.symbol hsym
  have h3 := decStr_enc p.name hnm
  have h4 := fun r2 => decCategory_enc p.category r2
  have h5 := fun r2 => decBool_enc p.active r2
  have h6 := fun r2 => decBool_enc p.tradable r2
  have h7 := fun r2 => decListWith_enc encOrderType decOrderType p.allowedOrderTypes r2 hots
    (fun a _ r3 => decOrderType_enc a r3)
  have h8 := fun r2 => decF64_enc p.closePrice r2
  have h9 := decDate_enc p.closePriceDate hdate r
  simp only [encProductDetails, decProductDetails, List.append_assoc,
    h1, h2, h3, h4, h5, h6, h7, h8, h9]

theorem decFinancialReports_enc (f : FinancialReportsW) (hf : f.wfb = true) (r : List Byte) :
    decFinancialReports (encFinancialReports f ++ r) = some (f, r) := by
  simp only [FinancialReportsW.wfb, Bool.and_eq_true, decide_eq_true_eq] at hf
  obtain ⟨hid, hbody⟩ := hf
  simp only [encFinancialReports, decFinancialReports, List.append_assoc,
    decStr_enc f.id hid, decStr_enc f.body hbody r]

theorem decCandles_enc (c : CandlesW) (hc : c.wfb = true) (r : List Byte) :
    decCandles (encCandles c ++ r) = some (c, r) := by
  simp only [CandlesW.wfb, Bool.and_eq_true, decide_eq_true_eq] at hc
  obtain ⟨⟨⟨⟨⟨⟨⟨hsym, ho⟩, hh⟩, hl⟩, hcl⟩, hvol⟩, htlen⟩, hall⟩ := hc
  have h1 := decStr_enc c.symbol hsym
  have h2 := fun r2 => decListWith_enc encF64 decF64 c.opn r2 ho (fun a _ r3 => decF64_enc a r3)
  have h3 := fun r2 => decListWith_enc encF64 decF64 c.hi r2 hh (fun a _ r3 => decF64_enc a r3)
  have h4 := fun r2 => decListWith_enc encF64 decF64 c.lo r2 hl (fun a _ r3 => decF64_enc a r3)
  have h5 := fun r2 => decListWith_enc encF64 decF64 c.cl r2 hcl (fun a _ r3 => decF64_enc a r3)
  have h6 : ∀ r2, decOptWith (decListWith decF64) (encOptWith (encListWith encF64) c.volume ++ r2)
      = some (c.volume, r2) := by
    intro r2
    refine decOptWith_enc _ _ _ _ ?_
    intro v hv
    refine decListWith_enc encF64 decF64 v r2 ?_ (fun a _ r3 => decF64_enc a r3)
    rw [hv] at hvol
    simpa using hvol
  have htall : ∀ x ∈ c.time, x.wfb = true := by
    intro x hx
    exact List.all_eq_true.mp hall x hx
  have h7 := decListWith_enc encDateTime decDateTime c.time r htlen
    (fun a ha r3 => decDateTime_enc a (htall a ha) r3)
  simp only [encCandles, decCandles, List.append_assoc, h1, h2, h3, h4, h5, h6, h7]

theorem decOptF64_enc (o : Option F64) (r : List Byte) :
    decOptWith decF64 (encOptWith encF64 o ++ r) = some (o, r) :=
  decOptWith_enc _ _ _ _ (fun a _ => decF64_enc a r)

theorem decOptCategory_enc (o : Option ProductCategory) (r : List Byte) :
    decOptWith decCategory (encOptWith encCategory o ++ r) = some (o, r) :=
  decOptWith_enc _ _ _ _ (fun a _ => decCategory_enc a r)

theorem decRequest_enc (q : Request) (hq : q.wfb = true) (r : List Byte) :
    decRequest (encRequest q ++ r) = some (q, r) := by
  cases q with
  | authorize => simp [encRequest, decRequest, decU32_enc 0 (by norm_num) r]
  | getPortfolio => simp [encRequest, decRequest, decU32_enc 8 (by norm_num) r]
  | getOrders => simp [encRequest, decRequest, decU32_enc 10 (by norm_num) r]
  | cleanUp => simp [encRequest, decRequest, decU32_enc 11 (by norm_num) r]
  | fetchData i =>
    have hopt : ∀ r2, decOptWith decStr (encOptWith encStr i ++ r2) = some (i, r2) := by
      intro r2
      refine decOptWith_enc _ _ _ _ ?_
      intro a ha
      refine decStr_enc a ?_ r2
      rw [ha] at hq
      simpa [Request.wfb] using hq
    simp [encRequest, decRequest, List.append_assoc, decU32_enc 1 (by norm_num), hopt]
  | getProduct q =>
    have hqw : q.wfb = true := by simpa [Request.wfb] using hq
    have h := fun r2 => decProductQueryW_enc q hqw r2
    simp [encRequest, decRequest, List.append_assoc, decU32_enc 2 (by norm_num), h]
  | getFinancials q =>
    have hqw : q.wfb = true := by simpa [Request.wfb] using hq
    have h := fun r2 => decProductQueryW_enc q hqw r2
    simp [encRequest, decRequest, List.append_assoc, decU32_enc 3 (by norm_num), h]
  | getCandles q =>
    have hqw : q.wfb = true := by simpa [Request.wfb] using hq
    have h := fun r2 => decProductQueryW_enc q hqw r2
    simp [encRequest, decRequest, List.append_assoc, decU32_enc 4 (by norm_num), h]
  | getSingleAllocation q mode risk riskFree =>
    have hqw : q.wfb = true := by simpa [Request.wfb] using hq
    have h1 := fun r2 => decProductQueryW_enc q hqw r2
    have h2 := fun r2 => decRiskMode_enc mode r2
    have h3 := fun r2 => decF64_enc risk r2
    have h4 := fun r2 => decF64_enc riskFree r2
    simp [encRequest, decRequest, List.append_assoc, decU32_enc 5 (by norm_num),
      h1, h2, h3, h4]
  | calculatePortfolio mode risk riskFree freq money maxStocks minRsi maxRsi minDd maxDd
      minClass maxClass ssc minRoic rwd =>
    have hfs : freq < 2 ^ 64 ∧ maxStocks < 2 ^ 64 := by
      simpa [Request.wfb] using hq
    have h1 := fun r2 => decRiskMode_enc mode r2
    have h2 := fun r2 => decF64_enc risk r2
    have h3 := fun r2 => decF64_enc riskFree r2
    have h4 := fun r2 => decU64_enc freq hfs.1 r2
    have h5 := fun r2 => decF64_enc money r2
    have h6 := fun r2 => decU64_enc maxStocks hfs.2 r2
    have h7 := fun r2 => decOptF64_enc minRsi r2
    have h8 := fun r2 => decOptF64_enc maxRsi r2
    have h9 := fun r2 => decOptF64_enc minDd r2
    have h10 := fun r2 => decOptF64_enc maxDd r2
    have h11 := fun r2 => decOptCategory_enc minClass r2
    have h12 := fun r2 => decOptCategory_enc maxClass r2
    have h13 := fun r2 => decBool_enc ssc r2
    have h14 := fun r2 => decOptF64_enc minRoic r2
    have h15 := fun r2 => decOptF64_enc rwd r2
    simp [encRequest, decRequest, List.append_assoc, decU32_enc 6 (by norm_num),
      h1, h2, h3, h4, h5, h6, h7, h8, h9, h10, h11, h12, h13, h14, h15]
  | recalculateSl nstd maxPercent =>
    have hn : nstd < 2 ^ 64 := by simpa [Request.wfb] using hq
    have h1 := fun r2 => decU64_enc nstd hn r2
    have h2 := fun r2 => decOptF64_enc maxPercent r2
    simp [encRequest, decRequest, List.append_assoc, decU32_enc 7 (by norm_num), h1, h2]
  | getTransactions a b =>
    have hab : a.wfb = true ∧ b.wfb = true := by
      simpa [Request.wfb] using hq
    have h1 := fun r2 => decDate_enc a hab.1 r2
    have h2 := fun r2 => decDate_enc b hab.2 r2
    simp [encRequest, decRequest, List.append_assoc, decU32_enc 9 (by norm_num), h1, h2]

theorem decResponse_enc (q : Response) (hq : q.wfb = true) (r : List Byte) :
    decResponse (encResponse q ++ r) = some (q, r) := by
  cases q with
  | sendCleanUp => simp [encResponse, decResponse, decU32_enc 9 (by norm_num) r]
  | sendProduct p =>
    have h : ∀ r2, decOptWith decProductDetails (encOptWith encProductDetails p ++ r2)
        = some (p, r2) := by
      intro r2
      refine decOptWith_enc _ _ _ _ ?_
      intro a ha
      refine decProductDetails_enc a ?_ r2
      rw [ha] at hq
      simpa [Response.wfb] using hq
    simp [encResponse, decResponse, List.append_assoc, decU32_enc 0 (by norm_num), h]
  | sendFinancials f =>
    have h : ∀ r2, decOptWith decFinancialReports (encOptWith encFinancialReports f ++ r2)
        = some (f, r2) := by
      intro r2
      refine decOptWith_enc _ _ _ _ ?_
      intro a ha
      refine decFinancialReports_enc a ?_ r2
      rw [ha] at hq
      simpa [Response.wfb] using hq
    simp [encResponse, decResponse, List.append_assoc, decU32_enc 1 (by norm_num), h]
  | sendCandles c =>
    have h : ∀ r2, decOptWith decCandles (encOptWith encCandles c ++ r2) = some (c, r2) := by
      intro r2
      refine decOptWith_enc _ _ _ _ ?_
      intro a ha
      refine decCandles_enc a ?_ r2
      rw [ha] at hq
      simpa [Response.wfb] using hq
    simp [encResponse, decResponse, List.append_assoc, decU32_enc 2 (by norm_num), h]
  | sendSingleAllocation x =>
    have h := fun r2 => decOptF64_enc x r2
    simp [encResponse, decResponse, List.append_assoc, decU32_enc 3 (by norm_num), h]
  | sendPortfolio s =>
    have h : ∀ r2, decOptWith decStr (encOptWith encStr s ++ r2) = some (s, r2) := by
      intro r2
      refine decOptWith_enc _ _ _ _ ?_
      intro a ha
      refine decStr_enc a ?_ r2
      rw [ha] at hq
      simpa [Response.wfb] using hq
    simp [encResponse, decResponse, List.append_assoc, decU32_enc 4 (by norm_num), h]
  | sendRecalcucatetSl s =>
    have h : ∀ r2, decOptWith decStr (encOptWith encStr s ++ r2) = some (s, r2) := by
      intro r2
      refine decOptWith_enc _ _ _ _ ?_
      intro a ha
      refine decStr_enc a ?_ r2
      rw [ha] at hq
      simpa [Response.wfb] using hq
    simp [encResponse, decResponse, List.append_assoc, decU32_enc 5 (by norm_num), h]
  | sendPortfolioSl s =>
    have h : ∀ r2, decOptWith decStr (encOptWith encStr s ++ r2) = some (s, r2) := by
      intro r2
      refine decOptWith_enc _ _ _ _ ?_
      intro a ha
      refine decStr_enc a ?_ r2
      rw [ha] at hq
      simpa [Response.wfb] using hq
    simp [encResponse, decResponse, List.append_assoc, decU32_enc 6 (by norm_num), h]
  | sendTransactions s =>
    have h : ∀ r2, decOptWith decStr (encOptWith encStr s ++ r2) = some (s, r2) := by
      intro r2
      refine decOptWith_enc _ _ _ _ ?_
      intro a ha
      refine decStr_enc a ?_ r2
      rw [ha] at hq
      simpa [Response.wfb] using hq
    simp [encResponse, decResponse, List.append_assoc, decU32_enc 7 (by norm_num), h]
  | sendOrders s =>
    have h : ∀ r2, decOptWith decStr (encOptWith encStr s ++ r2) = some (s, r2) := by
      intro r2
      refine decOptWith_enc _ _ _ _ ?_
      intro a ha
      refine decStr_enc a ?_ r2
      rw [ha] at hq
      simpa [Response.wfb] using hq
    simp [encResponse, decResponse, List.append_assoc, decU32_enc 8 (by norm_num), h]

theorem u64AsI64_small (n : Nat) (h : n < 2 ^ 63) : u64AsI64 n = (n : Int) := by
  have hm : n % 2 ^ 64 = n := Nat.mod_eq_of_lt (by omega)
  rw [u64AsI64, hm, if_pos h]

theorem checkedAdd_some (t s r : Int) (h : checkedAdd t s = some r) : r = t + s := by
  simp only [checkedAdd] at h
  split at h
  · cases h
    rfl
  · cases h

theorem asCandlesTimes_eq (interval : Period) (start : Int) (rows : List Ohlc)
    (ts : List Int) (hok : asCandlesTimes interval start rows = some ts)
    (hnw : ∀ x ∈ rows, interval.toMs * x.n < 2 ^ 63) :
    ts = rows.map (fun x => start + ((interval.toMs * x.n : Nat) : Int)) := by
  induction rows generalizing ts with
  | nil =>
    simp only [asCandlesTimes] at hok
    cases hok
    rfl
  | cons x xs ih =>
    simp only [asCandlesTimes, Option.bind_eq_bind] at hok
    cases hca : checkedAdd start (u64AsI64 (interval.toMs * x.n)) with
    | none => rw [hca] at hok; cases hok
    | some dt =>
      rw [hca] at hok
      simp only [Option.some_bind] at hok
      cases hrest : asCandlesTimes interval start xs with
      | none => rw [hrest] at hok; cases hok
      | some rest =>
        rw [hrest] at hok
        simp only [Option.some_bind, Option.pure_def, Option.some.injEq] at hok
        subst hok
        have hdt := checkedAdd_some _ _ _ hca
        rw [u64AsI64_small _ (hnw x (by simp))] at hdt
        simp only [List.map_cons, List.cons.injEq]
        exact ⟨hdt, ih rest hrest (fun y hy => hnw y (by simp [hy]))⟩

/-- C2 (corrected): every successfully decoded row time is
`start + offset * resolution-duration` as long as the `u64` product
`to_ms() * n` does not wrap the `as i64` cast; the resolution durations
are the fixed values the spec lists (week = 7 days, month = 30 days,
quarter = 90 days, half-year = 180 days, year = 365 days, multi-year =
multiples of the 365-day year); and for start 2020-01-01T00:00:00Z,
resolution one month, offsets [0,1,2], the decoded times fall on
2020-01-01, 2020-01-31 and 2020-03-01. -/
theorem c2_price_series_decoding :
    (∀ (rows : List Ohlc) (sym : List Char) (start : Int) (interval : Period)
      (c : CandlesC2), asCandles rows sym start interval = some c →
      (∀ x ∈ rows, interval.toMs * x.n < 2 ^ 63) →
      c.time = rows.map (fun x => start + ((interval.toMs * x.n : Nat) : Int)))
    ∧ (Period.toMs .PT1S = 1000 ∧ Period.toMs .PT1M = 60000 ∧
       Period.toMs .PT1H = 3600000 ∧ Period.toMs .P1D = 86400000 ∧
       Period.toMs .P1W = 7 * Period.toMs .P1D ∧
       Period.toMs .P1M = 30 * Period.toMs .P1D ∧
       Period.toMs .P3M = 90 * Period.toMs .P1D ∧
       Period.toMs .P6M = 180 * Period.toMs .P1D ∧
       Period.toMs .P1Y = 365 * Period.toMs .P1D ∧
       Period.toMs .P3Y = 3 * Period.toMs .P1Y ∧
       Period.toMs .P5Y = 5 * Period.toMs .P1Y ∧
       Period.toMs .P50Y = 50 * Period.toMs .P1Y)
    ∧ ((asCandles [⟨0, F64.zero, F64.zero, F64.zero, F64.zero⟩,
          ⟨1, F64.zero, F64.zero, F64.zero, F64.zero⟩,
          ⟨2, F64.zero, F64.zero, F64.zero, F64.zero⟩] [] 1577836800000 .P1M).map
            CandlesC2.time
          = some [1577836800000, 1580428800000, 1583020800000]
        ∧ (1577836800000 : Int) = 18262 * 86400000
        ∧ (1580428800000 : Int) = 18292 * 86400000
        ∧ (1583020800000 : Int) = 18322 * 86400000
        ∧ civilFromDaysNat 18262 = (2020, 1, 1)
        ∧ civilFromDaysNat 18292 = (2020, 1, 31)
        ∧ civilFromDaysNat 18322 = (2020, 3, 1)) := by
  refine ⟨?_, by decide, by decide⟩
  intro rows sym start interval c hc hnw
  simp only [asCandles, Option.bind_eq_bind] at hc
  cases hts : asCandlesTimes interval start rows with
  | none => rw [hts] at hc; cases hc
  | some ts =>
    rw [hts] at hc
    simp only [Option.some_bind, Option.pure_def, Option.some.injEq] at hc
    subst hc
    exact asCandlesTimes_eq interval start rows ts hts hnw

/-- C2 witness: the general row-time equation applied to the concrete
three-row January-2020 series. -/
theorem c2_price_series_decoding_witness :
    CandlesC2.time ⟨[], [1577836800000, 1580428800000, 1583020800000],
        [F64.zero, F64.zero, F64.zero], [F64.zero, F64.zero, F64.zero],
        [F64.zero, F64.zero, F64.zero], [F64.zero, F64.zero, F64.zero]⟩
      = ([⟨0, F64.zero, F64.zero, F64.zero, F64.zero⟩,
          ⟨1, F64.zero, F64.zero, F64.zero, F64.zero⟩,
          ⟨2, F64.zero, F64.zero, F64.zero, F64.zero⟩] : List Ohlc).map
          (fun x => (1577836800000 : Int) + ((Period.toMs .P1M * x.n : Nat) : Int)) :=
  c2_price_series_decoding.1
    [⟨0, F64.zero, F64.zero, F64.zero, F64.zero⟩,
     ⟨1, F64.zero, F64.zero, F64.zero, F64.zero⟩,
     ⟨2, F64.zero, F64.zero, F64.zero, F64.zero⟩]
    [] 1577836800000 .P1M _ (by decide) (by decide)

/-- C2 counterexample: with offset count 2^63 at one-month resolution the
`u64` product wraps to zero under the `as i64` cast, so the row decodes
with time = start instead of start + offset * duration — the claim's
unconditional equation fails on the code. -/
theorem c2_price_series_decoding_counterexample :
    (asCandles [⟨2 ^ 63, F64.zero, F64.zero, F64.zero, F64.zero⟩] [] 0 .P1M).map
        CandlesC2.time = some [0]
    ∧ (0 : Int) ≠ 0 + ((Period.toMs .P1M * 2 ^ 63 : Nat) : Int) := by
  constructor
  · decide
  · intro h
    have : ((Period.toMs .P1M * 2 ^ 63 : Nat) : Int) = 0 := by omega
    have h2 : (Period.toMs .P1M * 2 ^ 63 : Nat) = 0 := by exact_mod_cast this
    simp [Period.toMs] at h2

theorem tableGet_delete_self {α : Type} (t : Table α) (k : Key) :
    tableGet (tableDelete t k) k = none := by
  rw [tableGet, List.find?_eq_none.mpr]
  · rfl
  · intro e he
    rw [tableDelete, List.mem_filter] at he
    simpa using he.2

theorem tableGet_cons {α : Type} (e : Key × α) (t : Table α) (k : Key) :
    tableGet (e :: t) k = if e.1 == k then some e.2 else tableGet t k := by
  cases hc : (e.1 == k) <;> simp [tableGet, List.find?_cons, hc]

theorem tableGet_delete_other {α : Type} (t : Table α) (k k2 : Key) (h : k2 ≠ k) :
    tableGet (tableDelete t k) k2 = tableGet t k2 := by
  induction t with
  | nil => rfl
  | cons e es ih =>
    by_cases hc : e.1 = k
    · have hb : (e.1 == k) = true := by simpa using hc
      have hk2 : (e.1 == k2) = false := by
        simp only [beq_eq_false_iff_ne, ne_eq, hc]
        exact fun hh => h hh.symm
      have hstep : tableDelete (e :: es) k = tableDelete es k := by
        simp [tableDelete, List.filter_cons, hb]
      rw [hstep, ih, tableGet_cons, hk2]
      simp
    · have hb : (e.1 == k) = false := by simpa using hc
      have hstep : tableDelete (e :: es) k = e :: tableDelete es k := by
        simp [tableDelete, List.filter_cons, hb]
      rw [hstep, tableGet_cons, tableGet_cons, ih]

theorem tableDelete_idem {α : Type} (t : Table α) (k : Key) :
    tableDelete (tableDelete t k) k = tableDelete t k := by
  apply List.filter_eq_self.mpr
  intro e he
  rw [tableDelete, List.mem_filter] at he
  exact he.2

theorem runTxn_deleteSteps (failAt : Option Nat) (st : Store) (k : Key) :
    runTxnSteps (deleteSteps k) failAt st = none
    ∨ runTxnSteps (deleteSteps k) failAt st = some (deleteDataPure st k) := by
  rcases failAt with _ | n
  · right
    cases st
    simp [runTxnSteps, deleteSteps, deleteDataPure]
  · rcases n with _ | _ | _ | _ | _ | n
    · left; rfl
    · left; rfl
    · left; rfl
    · left; rfl
    · left; rfl
    · right
      cases st
      simp [runTxnSteps, deleteSteps, deleteDataPure]

/-- C6: the `DeleteData` handler is one write transaction: on success the
result is exactly the base store with the id removed from all four tables
(lookups of the id become absent; every other key reads unchanged), and
on any failure inside the transaction the base store is untouched. -/
theorem c6_delete_data_transactional :
    (∀ (failAt : Option Nat) (st : Store) (k : Key),
      (handleDeleteData failAt st k).2 = true →
        (handleDeleteData failAt st k).1 = deleteDataPure st k)
    ∧ (∀ (failAt : Option Nat) (st : Store) (k : Key),
      (handleDeleteData failAt st k).2 = false →
        (handleDeleteData failAt st k).1 = st)
    ∧ (∀ (st : Store) (k : Key),
      tableGet (deleteDataPure st k).candles k = none
      ∧ tableGet (deleteDataPure st k).products k = none
      ∧ tableGet (deleteDataPure st k).financialReports k = none
      ∧ tableGet (deleteDataPure st k).companyRatios k = none)
    ∧ (∀ (st : Store) (k k2 : Key), k2 ≠ k →
      tableGet (deleteDataPure st k).candles k2 = tableGet st.candles k2
      ∧ tableGet (deleteDataPure st k).products k2 = tableGet st.products k2
      ∧ tableGet (deleteDataPure st k).financialReports k2 = tableGet st.financialReports k2
      ∧ tableGet (deleteDataPure st k).companyRatios k2 = tableGet st.companyRatios k2) := by
  refine ⟨?_, ?_, ?_, ?_⟩
  · intro failAt st k h
    rcases runTxn_deleteSteps failAt st k with hr | hr <;>
      simp [handleDeleteData, hr] at h ⊢
  · intro failAt st k h
    rcases runTxn_deleteSteps failAt st k with hr | hr <;>
      simp [handleDeleteData, hr] at h ⊢
  · intro st k
    exact ⟨tableGet_delete_self _ _, tableGet_delete_self _ _,
      tableGet_delete_self _ _, tableGet_delete_self _ _⟩
  · intro st k k2 h
    exact ⟨tableGet_delete_other _ _ _ h, tableGet_delete_other _ _ _ h,
      tableGet_delete_other _ _ _ h, tableGet_delete_other _ _ _ h⟩

/-- C6 witness: the committed transaction on a one-entry store removes the
id everywhere and leaves a different key alone. -/
theorem c6_delete_data_transactional_witness :
    (handleDeleteData none ⟨[(['A'], 1)], [(['A'], ⟨['A'], [], [], 0⟩)], [], []⟩ ['A']).1
      = deleteDataPure ⟨[(['A'], 1)], [(['A'], ⟨['A'], [], [], 0⟩)], [], []⟩ ['A']
    ∧ tableGet (deleteDataPure ⟨[(['A'], 1)], [(['A'], ⟨['A'], [], [], 0⟩)], [], []⟩
        ['A']).candles ['B']
      = tableGet (⟨[(['A'], 1)], [(['A'], ⟨['A'], [], [], 0⟩)], [], []⟩ : Store).candles ['B'] :=
  ⟨c6_delete_data_transactional.1 none _ ['A'] (by decide),
   (c6_delete_data_transactional.2.2.2 _ ['A'] ['B'] (by decide)).1⟩

theorem findRemoval_none_iff (l : List Asset) (i : List Char) :
    findRemoval l i = none ↔ ∀ a ∈ l, a.id ≠ i := by
  induction l with
  | nil => simp [findRemoval]
  | cons x xs ih =>
    by_cases hx : x.id = i
    · simp [findRemoval, hx]
    · simp only [findRemoval, hx, if_false, Option.map_eq_none', List.mem_cons]
      constructor
      · intro h a ha
        rcases ha with ha | ha
        · subst ha; exact hx
        · exact (ih.mp h) a ha
      · intro h
        exact ih.mpr (fun a ha => h a (Or.inr ha))

theorem findRemoval_some_spec (l : List Asset) (i : List Char) (pos : Nat) (a : Asset) :
    findRemoval l i = some (pos, a) → a.id = i ∧ l[pos]? = some a := by
  induction l generalizing pos with
  | nil => intro h; cases h
  | cons x xs ih =>
    intro h
    by_cases hx : x.id = i
    · rw [findRemoval, if_pos hx] at h
      cases h
      exact ⟨hx, by simp⟩
    · rw [findRemoval, if_neg hx] at h
      rcases Option.map_eq_some'.mp h with ⟨⟨p2, a2⟩, hfr, heq⟩
      cases heq
      have := ih p2 hfr
      exact ⟨this.1, by simpa using this.2⟩

theorem erase_no_more (l : List Asset) (i : List Char) (pos : Nat) (a : Asset)
    (hc : l.countP (fun x => x.id == i) ≤ 1) (hfr : findRemoval l i = some (pos, a)) :
    ∀ b ∈ l.eraseIdx pos, b.id ≠ i := by
  induction l generalizing pos with
  | nil => cases hfr
  | cons x xs ih =>
    by_cases hx : x.id = i
    · rw [findRemoval, if_pos hx] at hfr
      cases hfr
      intro b hb
      have hcnt : xs.countP (fun x => x.id == i) = 0 := by
        rw [List.countP_cons_of_pos] at hc
        · omega
        · simpa using hx
      have := List.countP_eq_zero.mp hcnt b (by simpa using hb)
      simpa using this
    · rw [findRemoval, if_neg hx] at hfr
      rcases Option.map_eq_some'.mp hfr with ⟨⟨p2, a2⟩, hfr2, heq⟩
      cases heq
      intro b hb
      rw [List.eraseIdx_cons_succ, List.mem_cons] at hb
      rcases hb with hb | hb
      · subst hb; exact hx
      · have hc2 : xs.countP (fun x => x.id == i) ≤ 1 := by
          rw [List.countP_cons_of_neg] at hc
          · exact hc
          · simpa using hx
        exact ih p2 hc2 hfr2 b hb

/-- C7 counterexample: with the id tracked twice (reachable, since
`AddAsset` pushes without a duplicate check) the second `DeleteAsset`
moves the second occurrence as well, so the state after the second call
differs from the state after the first. -/
theorem c7_cleanup_idempotent_counterexample :
    (handleDeleteAsset (handleDeleteAsset
        ⟨0, F64.zero, .std, F64.zero, F64.zero, none, [], [],
          [⟨['X']⟩, ⟨['X']⟩], none⟩ ['X']).1 ['X']).1
      ≠ (handleDeleteAsset
        ⟨0, F64.zero, .std, F64.zero, F64.zero, none, [], [],
          [⟨['X']⟩, ⟨['X']⟩], none⟩ ['X']).1 := by
  decide

/-- C7 (amended): when the id occurs at most once in the tracked list (the
spec's ordered-set reading), a second `DeleteAsset` finds nothing, changes
nothing and does not rewrite the config; and the cache `DeleteData` purge
is unconditionally idempotent. -/
theorem c7_cleanup_idempotent :
    (∀ (cfg : Config) (i : List Char),
      cfg.assets.countP (fun a => a.id == i) ≤ 1 →
        handleDeleteAsset (handleDeleteAsset cfg i).1 i = ((handleDeleteAsset cfg i).1, false))
    ∧ (∀ (st : Store) (k : Key), deleteDataPure (deleteDataPure st k) k = deleteDataPure st k) := by
  constructor
  · intro cfg i hc
    cases hfr : findRemoval cfg.assets i with
    | none =>
      have h1 : handleDeleteAsset cfg i = (cfg, false) := by
        unfold handleDeleteAsset
        rw [hfr]
      rw [h1]
      exact h1
    | some pa =>
      rcases pa with ⟨pos, a⟩
      have h1 : handleDeleteAsset cfg i = ({ cfg with assets := cfg.assets.eraseIdx pos, disabledAssets := some ((cfg.disabledAssets.getD []) ++ [a]) }, true) := by
        unfold handleDeleteAsset
        rw [hfr]
      rw [h1]
      have hnone : findRemoval (cfg.assets.eraseIdx pos) i = none :=
        (findRemoval_none_iff _ _).mpr (erase_no_more cfg.assets i pos a hc hfr)
      unfold handleDeleteAsset
      simp only [hnone]
  · intro st k
    cases st
    simp only [deleteDataPure, tableDelete_idem]

/-- C7 witness: double deletion on a singleton tracked list, and double
purge on a one-entry store. -/
theorem c7_cleanup_idempotent_witness :
    handleDeleteAsset (handleDeleteAsset
        ⟨0, F64.zero, .std, F64.zero, F64.zero, none, [], [], [⟨['X']⟩], none⟩ ['X']).1 ['X']
      = ((handleDeleteAsset
        ⟨0, F64.zero, .std, F64.zero, F64.zero, none, [], [], [⟨['X']⟩], none⟩ ['X']).1, false) :=
  c7_cleanup_idempotent.1
    ⟨0, F64.zero, .std, F64.zero, F64.zero, none, [], [], [⟨['X']⟩], none⟩ ['X'] (by decide)

/-- C8: a ById query is a direct keyed read; a BySymbol hit is a stored
product whose lowercased symbol equals the lowercased query, and a miss
(no stored product matching) yields `none`; a ByName hit is a stored
product whose display name contains a case-insensitive match of the
pattern, and a miss yields `none`. -/
theorem c8_product_query_addressing :
    (∀ (st : Store) (k : Key), handleProductQuery st (.byId k) = tableGet st.products k)
    ∧ (∀ (st : Store) (s : List Char) (p : DbProduct),
      handleProductQuery st (.bySymbol s) = some p →
        (∃ k, (k, p) ∈ st.products) ∧ toLowerCL p.symbol = toLowerCL s)
    ∧ (∀ (st : Store) (s : List Char),
      (∀ e ∈ st.products, toLowerCL e.2.symbol ≠ toLowerCL s) →
        handleProductQuery st (.bySymbol s) = none)
    ∧ (∀ (st : Store) (s : List Char) (p : DbProduct),
      handleProductQuery st (.byName s) = some p →
        (∃ k, (k, p) ∈ st.products) ∧ nameMatches s p.name = true)
    ∧ (∀ (st : Store) (s : List Char),
      (∀ e ∈ st.products, nameMatches s e.2.name = false) →
        handleProductQuery st (.byName s) = none) := by
  refine ⟨fun st k => rfl, ?_, ?_, ?_, ?_⟩
  · intro st s p h
    rw [handleProductQuery] at h
    rcases Option.map_eq_some'.mp h with ⟨e, hfind, he2⟩
    have hmem := List.mem_of_find?_eq_some hfind
    have hpred := List.find?_some hfind
    subst he2
    refine ⟨⟨e.1, ?_⟩, by simpa using hpred⟩
    simpa using hmem
  · intro st s h
    rw [handleProductQuery, List.find?_eq_none.mpr]
    · rfl
    · intro e he
      simpa using h e he
  · intro st s p h
    rw [handleProductQuery] at h
    rcases Option.map_eq_some'.mp h with ⟨e, hfind, he2⟩
    have hmem := List.mem_of_find?_eq_some hfind
    have hpred := List.find?_some hfind
    subst he2
    refine ⟨⟨e.1, ?_⟩, hpred⟩
    simpa using hmem
  · intro st s h
    rw [handleProductQuery, List.find?_eq_none.mpr]
    · rfl
    · intro e he
      simp [h e he]

/-- C8 witness: the three query forms on a two-product store: an id hit,
a case-insensitive symbol hit, a case-insensitive name-substring hit, and
a symbol miss. -/
theorem c8_product_query_addressing_witness :
    handleProductQuery ⟨[], [(['1'], ⟨['1'], ['m', 's', 'f', 't'], ['M', 'i', 'c'], 7⟩)], [], []⟩
        (.byId ['1'])
      = tableGet [(['1'], ⟨['1'], ['m', 's', 'f', 't'], ['M', 'i', 'c'], 7⟩)] ['1']
    ∧ ((∃ k, (k, (⟨['1'], ['m', 's', 'f', 't'], ['M', 'i', 'c'], 7⟩ : DbProduct))
        ∈ [(['1'], (⟨['1'], ['m', 's', 'f', 't'], ['M', 'i', 'c'], 7⟩ : DbProduct))])
      ∧ toLowerCL ['m', 's', 'f', 't'] = toLowerCL ['M', 'S', 'F', 'T'])
    ∧ handleProductQuery ⟨[], [(['1'], ⟨['1'], ['m', 's', 'f', 't'], ['M', 'i', 'c'], 7⟩)], [], []⟩
        (.bySymbol ['z'])
      = none :=
  ⟨c8_product_query_addressing.1 _ ['1'],
   c8_product_query_addressing.2.1 ⟨[], [(['1'], ⟨['1'], ['m', 's', 'f', 't'], ['M', 'i', 'c'], 7⟩)], [], []⟩
     ['M', 'S', 'F', 'T'] _ (by decide),
   c8_product_query_addressing.2.2.1 _ ['z'] (by decide)⟩

/-- C9 counterexample: the per-id cache delete (`DeleteData`) is declared
with the concurrent executor, not the sequential one, though it is a
cache write. -/
theorem c9_executor_counterexample :
    DbMsg.isCacheWrite .deleteData = true ∧ dbExecutor .deleteData ≠ .sequential := by
  decide

/-- C9 (amended): the four per-table puts and the Settings list mutations
(AddAsset, DeleteAsset, and the GetAssets read) are declared sequential;
the four pure queries are concurrent; but DeleteData and CleanUp on the
cache and SaveSettings/ReplaceSettings on Settings are also declared
concurrent. -/
theorem c9_executor_disciplines :
    (∀ m : DbMsg, m.isCacheWrite = true → m ≠ .deleteData → dbExecutor m = .sequential)
    ∧ dbExecutor .deleteData = .concurrent
    ∧ dbExecutor .cleanUp = .concurrent
    ∧ dbExecutor .productQuery = .concurrent
    ∧ dbExecutor .candlesQuery = .concurrent
    ∧ dbExecutor .financialReportsQuery = .concurrent
    ∧ dbExecutor .companyRatiosQuery = .concurrent
    ∧ settingsExecutor .addAsset = .sequential
    ∧ settingsExecutor .deleteAsset = .sequential
    ∧ settingsExecutor .getAssets = .sequential
    ∧ settingsExecutor .saveSettings = .concurrent
    ∧ settingsExecutor .replaceSettings = .concurrent := by
  refine ⟨?_, rfl, rfl, rfl, rfl, rfl, rfl, rfl, rfl, rfl, rfl, rfl⟩
  intro m hw hne
  cases m <;> first
    | rfl
    | exact absurd rfl hne
    | exact absurd hw (by decide)

/-- C9 witness: the put-product message is a cache write distinct from
DeleteData and declared sequential. -/
theorem c9_executor_disciplines_witness :
    dbExecutor .putProduct = .sequential :=
  c9_executor_disciplines.1 .putProduct (by decide) (by decide)

/-- C10: deleting a tracked asset is an archival move: when the id is
present, the handler removes its first occurrence from `assets`, appends
that same asset to `disabled_assets` (created when absent), keeps every
other config field, and saves (`true`); when the id is absent the config
is returned untouched with no save (`false`); the scan really finds an
occurrence of the id, and presence of the id guarantees the scan finds
one. -/
theorem c10_delete_asset_archival :
    (∀ (cfg : Config) (i : List Char) (pos : Nat) (a : Asset),
      findRemoval cfg.assets i = some (pos, a) →
        handleDeleteAsset cfg i = ({ cfg with assets := cfg.assets.eraseIdx pos, disabledAssets := some ((cfg.disabledAssets.getD []) ++ [a]) }, true))
    ∧ (∀ (cfg : Config) (i : List Char),
      (∀ a ∈ cfg.assets, a.id ≠ i) → handleDeleteAsset cfg i = (cfg, false))
    ∧ (∀ (l : List Asset) (i : List Char) (pos : Nat) (a : Asset),
      findRemoval l i = some (pos, a) → a.id = i ∧ l[pos]? = some a)
    ∧ (∀ (cfg : Config) (i : List Char),
      (∃ a ∈ cfg.assets, a.id = i) → (findRemoval cfg.assets i).isSome = true) := by
  refine ⟨?_, ?_, findRemoval_some_spec, ?_⟩
  · intro cfg i pos a hfr
    unfold handleDeleteAsset
    rw [hfr]
  · intro cfg i h
    unfold handleDeleteAsset
    rw [(findRemoval_none_iff _ _).mpr h]
  · intro cfg i h
    cases hfr : findRemoval cfg.assets i with
    | none =>
      rcases h with ⟨a, ha, hai⟩
      exact absurd hai ((findRemoval_none_iff _ _).mp hfr a ha)
    | some pa => rfl

/-- C10 witness: deleting a present id archives it; deleting an absent id
is a no-op without a save. -/
theorem c10_delete_asset_archival_witness :
    handleDeleteAsset
        ⟨0, F64.zero, .std, F64.zero, F64.zero, none, [], [], [⟨['X']⟩], none⟩ ['X']
      = ({ (⟨0, F64.zero, .std, F64.zero, F64.zero, none, [], [], [⟨['X']⟩], none⟩ : Config) with assets := ([⟨['X']⟩] : List Asset).eraseIdx 0, disabledAssets := some (((none : Option (List Asset)).getD []) ++ [⟨['X']⟩]) }, true)
    ∧ handleDeleteAsset
        ⟨0, F64.zero, .std, F64.zero, F64.zero, none, [], [], [⟨['X']⟩], none⟩ ['Y']
      = (⟨0, F64.zero, .std, F64.zero, F64.zero, none, [], [], [⟨['X']⟩], none⟩, false) :=
  ⟨c10_delete_asset_archival.1 _ ['X'] 0 ⟨['X']⟩ (by decide),
   c10_delete_asset_archival.2.1 _ ['Y'] (by decide)⟩

/-- C3 counterexample: with the product and quotes fetches succeeding but
the financial-statements fetch failing terminally, the handler emits no
DeleteAsset and no DeleteData — the cleanup for the two auxiliary reports
is commented out in the source, so the id is retained. -/
theorem c3_fetch_cleanup_counterexample :
    handleFetchDataOne ['X'] ⟨.ok ⟨['I'], 0⟩, .ok 0, .error .other, .ok 0⟩
      = [.putProduct ⟨['I'], 0⟩, .putCandles 0, .putCompanyRatios 0]
    ∧ GwAction.settingsDeleteAsset ['X']
        ∉ handleFetchDataOne ['X'] ⟨.ok ⟨['I'], 0⟩, .ok 0, .error .other, .ok 0⟩
    ∧ GwAction.dbDeleteData ['X']
        ∉ handleFetchDataOne ['X'] ⟨.ok ⟨['I'], 0⟩, .ok 0, .error .other, .ok 0⟩ := by
  decide

/-- C3 (amended): the id is dropped from Settings and purged from the
cache exactly when the price-series (quotes) fetch fails terminally (and
the product fetch did not divert into the re-authorize path); failures of
the financial-statements or company-ratios fetches are logged only; and
in the all-assets loop every tracked id gets its own full per-id pass. -/
theorem c3_fetch_failure_cleanup :
    (∀ (i : List Char) (o : FetchOutcomes),
      GwAction.settingsDeleteAsset i ∈ handleFetchDataOne i o
        ↔ (o.product ≠ .error .unauthorized ∧ ∃ e, o.quotes = .error e))
    ∧ (∀ (i : List Char) (o : FetchOutcomes),
      GwAction.dbDeleteData i ∈ handleFetchDataOne i o
        ↔ (o.product ≠ .error .unauthorized ∧ ∃ e, o.quotes = .error e))
    ∧ (∀ (o : List Char → FetchOutcomes) (assets : List (List Char)) (i : List Char),
      i ∈ assets → ∃ pre post, fetchAll o assets = pre ++ (handleFetchDataOne i (o i) ++ post)) := by
  refine ⟨?_, ?_, ?_⟩
  · intro i o
    rcases o with ⟨op, oq, ofin, orat⟩
    rcases op with e | p
    · cases e <;> rcases oq with e2 | q <;> rcases ofin with e3 | f <;> rcases orat with e4 | c <;>
        simp [handleFetchDataOne, fetchTail]
    · rcases oq with e2 | q <;> rcases ofin with e3 | f <;> rcases orat with e4 | c <;>
        simp [handleFetchDataOne, fetchTail]
  · intro i o
    rcases o with ⟨op, oq, ofin, orat⟩
    rcases op with e | p
    · cases e <;> rcases oq with e2 | q <;> rcases ofin with e3 | f <;> rcases orat with e4 | c <;>
        simp [handleFetchDataOne, fetchTail]
    · rcases oq with e2 | q <;> rcases ofin with e3 | f <;> rcases orat with e4 | c <;>
        simp [handleFetchDataOne, fetchTail]
  · intro o assets i hmem
    induction assets with
    | nil => cases hmem
    | cons j rest ih =>
      rcases List.mem_cons.mp hmem with hj | hj
      · subst hj
        exact ⟨[], fetchAll o rest, by simp [fetchAll]⟩
      · obtain ⟨pre, post, heq⟩ := ih hj
        exact ⟨handleFetchDataOne j (o j) ++ pre, post, by simp [fetchAll, heq]⟩

/-- C3 witness: a quotes failure on id X triggers both cleanup messages,
and X's pass is a contiguous segment of the two-asset loop. -/
theorem c3_fetch_failure_cleanup_witness :
    (GwAction.settingsDeleteAsset ['X']
        ∈ handleFetchDataOne ['X'] ⟨.ok ⟨['I'], 0⟩, .error .other, .ok 0, .ok 0⟩
      ↔ ((Except.ok (⟨['I'], 0⟩ : ProductData) : Except FetchErr ProductData)
          ≠ .error .unauthorized
        ∧ ∃ e, (Except.error .other : Except FetchErr Nat) = .error e))
    ∧ (∃ pre post,
        fetchAll (fun _ => ⟨.ok ⟨['I'], 0⟩, .error .other, .ok 0, .ok 0⟩) [['X'], ['Y']]
          = pre ++ (handleFetchDataOne ['Y']
              ((fun _ => (⟨.ok ⟨['I'], 0⟩, .error .other, .ok 0, .ok 0⟩ : FetchOutcomes)) ['Y'])
            ++ post)) :=
  ⟨c3_fetch_failure_cleanup.1 ['X'] ⟨.ok ⟨['I'], 0⟩, .error .other, .ok 0, .ok 0⟩,
   c3_fetch_failure_cleanup.2.2 (fun _ => ⟨.ok ⟨['I'], 0⟩, .error .other, .ok 0, .ok 0⟩)
     [['X'], ['Y']] ['Y'] (by decide)⟩

/-- C4: a gateway `Authorize` handler that finds the in-progress flag set
only waits for the broadcast wake-up — it issues no login of its own —
and, under sequential conditions with no prior session, a session-needing
call performs exactly one login before succeeding. -/
theorem c4_single_flight_authorize :
    (∀ (ok : Bool) (st : GwState), st.isAuthorizing = true →
      handleAuthorize ok st = (st, [.waited], true))
    ∧ (∀ (ok : Bool) (st : GwState), st.isAuthorizing = true →
      AuthEvent.loginCalled ∉ (handleAuthorize ok st).2.1)
    ∧ (∀ fuel : Nat,
      handleSessionCall true (fuel + 2) ⟨false, false⟩ = (⟨false, true⟩, [.loginCalled], true)) := by
  refine ⟨?_, ?_, ?_⟩
  · intro ok st h
    simp [handleAuthorize, h]
  · intro ok st h
    simp [handleAuthorize, h]
  · intro fuel
    simp [handleSessionCall, handleAuthorize]

/-- C4 witness: a handler entered with the flag set waits without logging
in, and the fresh-session scenario logs in exactly once. -/
theorem c4_single_flight_authorize_witness :
    handleAuthorize true ⟨true, false⟩ = (⟨true, false⟩, [.waited], true)
    ∧ handleSessionCall true 2 ⟨false, false⟩ = (⟨false, true⟩, [.loginCalled], true) :=
  ⟨c4_single_flight_authorize.1 true ⟨true, false⟩ (by decide),
   c4_single_flight_authorize.2.2 0⟩

/-- C1 (code bug): the prerequisite chain carries no retry counter and the
client error type has no AuthChainExhausted variant, so a producer that
succeeds without establishing its prerequisite makes the call re-invoke
itself forever.  (1) If login answers 2xx with no session id in the body
(`LoginResponse.session_id` is optional), `fetch_products` never returns,
whatever the recursion bound.  (2) If the batch product fetch succeeds but
returns no entry for the requested id, `product_by_id` never returns.
(3) If the account-config call keeps answering 401 while login keeps
succeeding, `fetch_account_config` never returns. -/
theorem c1_prerequisite_chain_diverges :
    (∀ (fuel : Nat) (st : PState) (ids : List Key), st.sessionId = none →
      fetchProducts ⟨.ok none, true, true, .ok []⟩ fuel st ids = none)
    ∧ (∀ (fuel : Nat) (cache : Table Nat) (s : List Char) (i : Key),
      tableGet cache i = none →
        productById ⟨.ok (some s), true, true, .ok []⟩ fuel ⟨some s, true, true, cache⟩ i = none)
    ∧ (∀ (fuel : Nat) (st : PState) (s : List Char),
      fetchAccountConfigLoop .unauthorized (.ok (some s)) fuel st = none) := by
  refine ⟨?_, ?_, ?_⟩
  · intro fuel st ids h
    induction fuel generalizing st ids with
    | zero => rfl
    | succ f ih =>
      rcases st with ⟨sid, acc, url, cache⟩
      have h2 : sid = none := h
      subst h2
      cases acc <;> cases url <;>
        · simp only [fetchProducts, loginStep]
          exact ih _ ids rfl
  · intro fuel cache s i hmiss
    induction fuel generalizing cache with
    | zero => rfl
    | succ f ih =>
      simp only [productById, hmiss]
      cases f with
      | zero => rfl
      | succ f2 => exact ih cache hmiss
  · intro fuel st s
    induction fuel generalizing st with
    | zero => rfl
    | succ f ih => exact ih _

/-- C1 witness: at recursion bounds 5, 7 and 9 none of the three calls has
returned on the respective degenerate upstream. -/
theorem c1_prerequisite_chain_diverges_witness :
    fetchProducts ⟨.ok none, true, true, .ok []⟩ 5 ⟨none, true, true, []⟩ [['1']] = none
    ∧ productById ⟨.ok (some ['S']), true, true, .ok []⟩ 7 ⟨some ['S'], true, true, []⟩ ['1']
        = none
    ∧ fetchAccountConfigLoop .unauthorized (.ok (some ['S'])) 9 ⟨none, false, false, []⟩
        = none :=
  ⟨c1_prerequisite_chain_diverges.1 5 ⟨none, true, true, []⟩ [['1']] rfl,
   c1_prerequisite_chain_diverges.2.1 7 [] ['S'] ['1'] rfl,
   c1_prerequisite_chain_diverges.2.2 9 ⟨none, false, false, []⟩ ['S']⟩

/-- C5: for every `Request` value and every `Response` value satisfying
the Rust type invariants (collection lengths fit in `usize`, dates are
valid chrono dates), bincode decoding of the bincode encoding returns the
original value with no bytes left over. -/
theorem c5_rpc_roundtrip :
    (∀ q : Request, q.wfb = true → decRequest (encRequest q) = some (q, []))
    ∧ (∀ p : Response, p.wfb = true → decResponse (encResponse p) = some (p, [])) := by
  constructor
  · intro q hq
    have h := decRequest_enc q hq []
    rwa [List.append_nil] at h
  · intro p hp
    have h := decResponse_enc p hp []
    rwa [List.append_nil] at h

/-- C5 witness: a GetTransactions request and a SendCandles response
round-trip through the wire encoding. -/
theorem c5_rpc_roundtrip_witness :
    decRequest (encRequest (.getTransactions ⟨2020, 1, 1⟩ ⟨2021, 12, 31⟩))
      = some (.getTransactions ⟨2020, 1, 1⟩ ⟨2021, 12, 31⟩, [])
    ∧ decResponse (encResponse (.sendCandles (some ⟨[byteOf 77], [F64.zero], [F64.zero],
          [F64.zero], [F64.zero], none, [⟨⟨2020, 1, 1⟩, 9, 30, 0⟩]⟩)))
      = some (.sendCandles (some ⟨[byteOf 77], [F64.zero], [F64.zero],
          [F64.zero], [F64.zero], none, [⟨⟨2020, 1, 1⟩, 9, 30, 0⟩]⟩), []) :=
  ⟨c5_rpc_roundtrip.1 _ (by decide), c5_rpc_roundtrip.2 _ (by decide)⟩

end Vg
